import Mathlib

/-!
Verification of the episodic inventory-change tracker
(`nle/env/inventory.py` and its consumer `check_meta.py`).

The Python module is embedded shallowly:

* `collections.Counter` / `dict` / `defaultdict` objects become association
  lists (`List (String × _)`) that preserve insertion order, with
  `Counter.get`/`Counter.add` reading and updating the first matching key —
  on lists whose keys are unique (which is an invariant of every counter the
  tracker builds, since they all start empty) this coincides with Python
  dict semantics.
* The mutable `InventoryStatsTracker` object becomes a record; each method
  becomes a function from the record (and arguments) to the updated record.
* An observation bundle is modelled by the two channels the tracker reads
  (`inv_strs`: one byte row per slot, `inv_oclasses`: one object-class code
  per slot); the slot indices stored in the tracker only select these two
  channels out of the environment's observation tuple, so `enabled` keeps
  the two `Option` indices and extraction consumes the channels directly.
* Strings are processed at the level of `List Char`.  Python's `str.strip`,
  `\s`, `\d` and `str.lower` are Unicode-aware; the NetHack inventory lines
  this module consumes are ASCII, and the model fixes the ASCII meaning
  (space, tab, newline, vertical tab, form feed, carriage return; ASCII
  digits; ASCII lower-casing).
-/

/-- Whitespace as matched by Python's `strip` / regex `\s` (ASCII range). -/
def pyIsSpace (c : Char) : Bool :=
  c == ' ' || c == '\t' || c == '\n' || c == '\x0b' || c == '\x0c' || c == '\r'

/-- ASCII letter, the `[a-zA-Z]` character class. -/
def isAsciiLetter (c : Char) : Bool :=
  ('a' ≤ c && c ≤ 'z') || ('A' ≤ c && c ≤ 'Z')

/-- ASCII digit, the `\d` character class (ASCII range). -/
def isAsciiDigit (c : Char) : Bool :=
  '0' ≤ c && c ≤ '9'

/-- Python `str.strip()`: drop whitespace from both ends. -/
def pyStrip (s : List Char) : List Char :=
  ((s.dropWhile pyIsSpace).reverse.dropWhile pyIsSpace).reverse

/-- The regex `_LETTER_PREFIX = ^[a-zA-Z]\s*[-)]\s+` applied with `.match`;
returns the text after the match end, or the text unchanged when there is no
match (the pattern is deterministic: neither `-` nor `)` is whitespace, so
greedy matching never backtracks). -/
def stripSlotLetter (s : List Char) : List Char :=
  match s with
  | [] => s
  | c :: rest =>
    if isAsciiLetter c then
      match rest.dropWhile pyIsSpace with
      | [] => s
      | d :: rest2 =>
        if d == '-' || d == ')' then
          match rest2 with
          | [] => s
          | e :: _ => if pyIsSpace e then rest2.dropWhile pyIsSpace else s
        else s
    else s

/-- Worker for the substitution `_PARENS.sub("", text)` with
`_PARENS = \([^)]*\)`: left-to-right scan; the flag says we are inside a
group being removed (an opening `(` only starts a group when a `)` follows,
exactly when the regex can match there; the group runs to the first `)`). -/
def removeParensGo : Bool → List Char → List Char
  | _, [] => []
  | true, c :: rest =>
    if c == ')' then removeParensGo false rest else removeParensGo true rest
  | false, c :: rest =>
    if c == '(' && rest.contains ')' then removeParensGo true rest
    else c :: removeParensGo false rest

/-- `_PARENS.sub("", text)`: remove every parenthesized group (non-nested;
an unclosed `(` is kept, since the regex cannot match it). -/
def removeParens (s : List Char) : List Char :=
  removeParensGo false s

/-- Worker for `re.sub(r"\s+", " ", text)`: the flag says whether the
previous character was part of a whitespace run already emitted as `' '`. -/
def collapseGo : Bool → List Char → List Char
  | _, [] => []
  | prevSpace, c :: rest =>
    if pyIsSpace c then
      if prevSpace then collapseGo true rest
      else ' ' :: collapseGo true rest
    else c :: collapseGo false rest

/-- `re.sub(r"\s+", " ", text)`: each maximal whitespace run becomes one space. -/
def collapseSpaces (s : List Char) : List Char :=
  collapseGo false s

/-- ASCII lower-casing, matching Python `str.lower()` on ASCII text. -/
def pyToLower (c : Char) : Char :=
  if 'A' ≤ c && c ≤ 'Z' then Char.ofNat (c.toNat + 32) else c

/-- Does `s` lower-cased start with the (already lower-case) pattern `p`?
This is `text.lower().startswith(p)` restricted to the first `p.length`
characters, which is all `startswith` inspects. -/
def startsWithLower (s p : List Char) : Bool :=
  decide ((s.take p.length).map pyToLower = p)

/-- The article-stripping loop: `for prefix in ("the ", "an ", "a "):` with a
`break` after the first hit. -/
def stripArticle (s : List Char) : List Char :=
  if startsWithLower s [ 't', 'h', 'e', ' '] then s.drop 4
  else if startsWithLower s [ 'a', 'n', ' '] then s.drop 3
  else if startsWithLower s [ 'a', ' '] then s.drop 2
  else s

/-- `re.sub(r"^\d+\s+", "", text)`: drop a leading digit run followed by a
whitespace run (both maximal; the pattern is deterministic because a digit is
never whitespace). -/
def stripLeadingCount (s : List Char) : List Char :=
  let ds := s.takeWhile isAsciiDigit
  if ds.isEmpty then s
  else
    let rest := s.dropWhile isAsciiDigit
    if (rest.takeWhile pyIsSpace).isEmpty then s
    else rest.dropWhile pyIsSpace

/-- `InventoryStatsTracker._normalize_name`, step for step. -/
def normalize_name (text : String) : String :=
  let t0 := pyStrip text.toList
  let t1 := stripSlotLetter t0
  let t2 := if t1.take 2 = [ '-', ' '] then t1.drop 2 else t1
  let t3 := pyStrip t2
  let t4 := removeParens t3
  let t5 := collapseSpaces t4
  let t6 := stripArticle t5
  let t7 := stripLeadingCount t6
  String.mk (pyStrip (t7.map pyToLower))

/-- A partially read multi-byte UTF-8 sequence: how many continuation bytes
are still expected, the code-point bits read so far, and the allowed range
of the next continuation byte (restricted after `E0`/`ED`/`F0`/`F4` heads to
exclude overlong encodings and surrogates, as CPython does). -/
structure Utf8Pend where
  need : Nat
  acc : Nat
  lo : Nat
  hi : Nat
deriving DecidableEq

/-- Classify a byte in start position: an ASCII character, the head of a
multi-byte sequence, or invalid (`none`). -/
def utf8StartByte (b : Nat) : Option (Sum Char Utf8Pend) :=
  if b < 0x80 then some (.inl (Char.ofNat b))
  else if 0xC2 ≤ b ∧ b ≤ 0xDF then some (.inr ⟨1, b - 0xC0, 0x80, 0xBF⟩)
  else if b = 0xE0 then some (.inr ⟨2, 0, 0xA0, 0xBF⟩)
  else if b = 0xED then some (.inr ⟨2, 0xD, 0x80, 0x9F⟩)
  else if 0xE0 ≤ b ∧ b ≤ 0xEF then some (.inr ⟨2, b - 0xE0, 0x80, 0xBF⟩)
  else if b = 0xF0 then some (.inr ⟨3, 0, 0x90, 0xBF⟩)
  else if b = 0xF4 then some (.inr ⟨3, 4, 0x80, 0x8F⟩)
  else if 0xF0 ≤ b ∧ b ≤ 0xF4 then some (.inr ⟨3, b - 0xF0, 0x80, 0xBF⟩)
  else none

/-- One-pass UTF-8 decoder with the `ignore` error handler: an invalid start
byte is skipped; a continuation byte out of range drops the pending maximal
subpart and is reprocessed as a start byte (CPython's behaviour); a
truncated sequence at the end is dropped. -/
def utf8Run : Option Utf8Pend → List Nat → List Char
  | _, [] => []
  | none, b :: rest =>
    match utf8StartByte b with
    | some (.inl c) => c :: utf8Run none rest
    | some (.inr p) => utf8Run (some p) rest
    | none => utf8Run none rest
  | some p, b :: rest =>
    if p.lo ≤ b ∧ b ≤ p.hi then
      let acc := p.acc * 0x40 + (b - 0x80)
      if p.need = 1 then Char.ofNat acc :: utf8Run none rest
      else utf8Run (some ⟨p.need - 1, acc, 0x80, 0xBF⟩) rest
    else
      match utf8StartByte b with
      | some (.inl c) => c :: utf8Run none rest
      | some (.inr q) => utf8Run (some q) rest
      | none => utf8Run none rest

/-- `bytes.decode("utf-8", "ignore")`. -/
def utf8DecodeIgnore (bs : List Nat) : List Char :=
  utf8Run none bs

/-- `InventoryStatsTracker._decode_line`: truncate the byte row at the first
null byte (`data.split(b"\0", 1)[0]`), decode UTF-8 ignoring errors, strip. -/
def decode_line (raw : List Nat) : String :=
  String.mk (pyStrip (utf8DecodeIgnore (raw.takeWhile (· != 0))))

/-- A `collections.Counter` with string keys: an insertion-ordered
association list.  All counters the tracker builds start empty and are only
updated through `Counter.add`, so their keys stay unique. -/
abbrev Counter : Type := List (String × Int)

/-- `counter.get(k, 0)` / `counter[k]` read access: first entry wins. -/
def Counter.get (c : Counter) (k : String) : Int :=
  match c with
  | [] => 0
  | (k', v) :: rest => if k' = k then v else Counter.get rest k

/-- `counter[k] += v`: update the entry in place, or append a new one (dicts
preserve insertion order). -/
def Counter.add (c : Counter) (k : String) (v : Int) : Counter :=
  match c with
  | [] => [(k, v)]
  | (k', v') :: rest =>
    if k' = k then (k', v' + v) :: rest else (k', v') :: Counter.add rest k v

/-- The keys of a counter, in insertion order. -/
def Counter.keys (c : Counter) : List String :=
  match c with
  | [] => []
  | (k, _) :: rest => k :: Counter.keys rest

/-- `collections.defaultdict(collections.Counter)`. -/
abbrev NestedCounter : Type := List (String × Counter)

/-- `nested[k1][k2] += v`: get-or-create the inner counter, then add. -/
def NestedCounter.add (m : NestedCounter) (k1 k2 : String) (v : Int) : NestedCounter :=
  match m with
  | [] => [(k1, Counter.add [] k2 v)]
  | (k, c) :: rest =>
    if k = k1 then (k, Counter.add c k2 v) :: rest
    else (k, c) :: NestedCounter.add rest k1 k2 v

/-- Read access `nested[k1]` without creating the entry (first entry wins). -/
def NestedCounter.getC (m : NestedCounter) (k1 : String) : Counter :=
  match m with
  | [] => []
  | (k, c) :: rest => if k = k1 then c else NestedCounter.getC rest k1

/-- Read access `nested[k1][k2]` without creating entries. -/
def NestedCounter.get (m : NestedCounter) (k1 k2 : String) : Int :=
  Counter.get (NestedCounter.getC m k1) k2

/-- The outer keys of a nested counter. -/
def NestedCounter.keys (m : NestedCounter) : List String :=
  match m with
  | [] => []
  | (k, _) :: rest => k :: NestedCounter.keys rest

/-- The `ItemStats` dataclass. -/
structure ItemStats where
  acquired : Int := 0
  actions : Counter := []
deriving DecidableEq

/-- `collections.defaultdict(ItemStats)`. -/
abbrev StatsMap : Type := List (String × ItemStats)

/-- `mapping[k].acquired += q` (the defaultdict creates the entry). -/
def StatsMap.addAcquired (m : StatsMap) (k : String) (q : Int) : StatsMap :=
  match m with
  | [] => [(k, { acquired := q })]
  | (k', s) :: rest =>
    if k' = k then (k', { s with acquired := s.acquired + q }) :: rest
    else (k', s) :: StatsMap.addAcquired rest k q

/-- `mapping[k].actions[label] += q` (the defaultdict creates the entry). -/
def StatsMap.addAction (m : StatsMap) (k lbl : String) (q : Int) : StatsMap :=
  match m with
  | [] => [(k, { actions := Counter.add [] lbl q })]
  | (k', s) :: rest =>
    if k' = k then (k', { s with actions := Counter.add s.actions lbl q }) :: rest
    else (k', s) :: StatsMap.addAction rest k lbl q

/-- `dict.get` / `dict.setdefault` carrier for `name_to_category`. -/
def lookupStr (m : List (String × String)) (k : String) : Option String :=
  match m with
  | [] => none
  | (k', v) :: rest => if k' = k then some v else lookupStr rest k

/-- `name_to_category.setdefault(k, v)`. -/
def setdefault (m : List (String × String)) (k v : String) : List (String × String) :=
  match m with
  | [] => [(k, v)]
  | (k', v') :: rest =>
    if k' = k then (k', v') :: rest else (k', v') :: setdefault rest k v

/-- The `InventorySnapshot` dataclass. -/
structure InventorySnapshot where
  counts : Counter
  categories : Counter
  name_to_category : List (String × String)
deriving DecidableEq

/-- `nethack.MAXOCLASSES`, the "no object" sentinel class code (constant of
the external `nle.nethack` module: NetHack's object-class enumeration). -/
def MAXOCLASSES : Nat := 18

/-- The `CATEGORY_NAMES` table, keyed by the external `nethack.*_CLASS`
object-class codes (WEAPON_CLASS = 2 … VENOM_CLASS = 17), composed with the
`.get(int(oclass), "unknown")` default used at the call site. -/
def CATEGORY_NAMES (oclass : Nat) : String :=
  if oclass = 2 then "weapon"
  else if oclass = 3 then "armor"
  else if oclass = 4 then "ring"
  else if oclass = 5 then "amulet"
  else if oclass = 6 then "tool"
  else if oclass = 7 then "food"
  else if oclass = 8 then "potion"
  else if oclass = 9 then "scroll"
  else if oclass = 10 then "spellbook"
  else if oclass = 11 then "wand"
  else if oclass = 12 then "gold"
  else if oclass = 13 then "gem"
  else if oclass = 14 then "rock"
  else if oclass = 15 then "ball"
  else if oclass = 16 then "chain"
  else if oclass = 17 then "venom"
  else "unknown"

/-- An action value, identified by the enum family it belongs to and the
member name inside that family (the `nle.nethack` action enums are disjoint
keycode sets: no tracked `Command` shares its value with a direction or
miscellaneous action, so family plus name determines the Python value). -/
inductive NhAction where
  | Command (name : String)
  | CompassDirection (name : String)
  | CompassDirectionLonger (name : String)
  | MiscDirection (name : String)
  | MiscAction (name : String)
  | other
deriving DecidableEq

def UNKNOWN_ACTION_LABEL : String := "unknown"

/-- The `TRACKED_COMMANDS` table: `nethack.Command` member name → label. -/
def TRACKED_COMMANDS : List (String × String) :=
  [("EAT", "eat"), ("QUAFF", "quaff"), ("READ", "read"), ("ZAP", "zap"),
   ("APPLY", "apply"), ("CAST", "cast"), ("DIP", "dip"), ("DROP", "drop"),
   ("DROPTYPE", "drop"), ("ENGRAVE", "engrave"), ("FIRE", "fire"),
   ("INVOKE", "invoke"), ("LOOT", "loot"), ("OFFER", "offer"), ("PAY", "pay"),
   ("PICKUP", "pickup"), ("PUTON", "puton"), ("REMOVE", "remove"),
   ("TAKEOFF", "takeoff"), ("TAKEOFFALL", "takeoffall"), ("TIP", "tip"),
   ("RUB", "rub"), ("WEAR", "wear"), ("WIELD", "wield"), ("THROW", "throw"),
   ("UNTRAP", "untrap")]

/-- `TRACKED_COMMANDS.get(action_value)`: only `Command` members are keys. -/
def trackedCommandGet (a : NhAction) : Option String :=
  match a with
  | .Command n => lookupStr TRACKED_COMMANDS n
  | _ => none

/-- Python `name.lower()` on an enum member name (ASCII). -/
def lowerStr (s : String) : String :=
  String.mk (s.toList.map pyToLower)

/-- `InventoryStatsTracker._action_to_label`. -/
def action_to_label (a : NhAction) : String :=
  match trackedCommandGet a with
  | some lbl => lbl
  | none =>
    match a with
    | .CompassDirection n => "move_" ++ lowerStr n
    | .CompassDirectionLonger n => "move_" ++ lowerStr n
    | .MiscDirection n =>
      if n = "UP" then "move_up"
      else if n = "DOWN" then "move_down"
      else if n = "WAIT" then "wait"
      else "move_" ++ lowerStr n
    | .MiscAction n => lowerStr n
    | .Command n => lowerStr n
    | .other => UNKNOWN_ACTION_LABEL

/-- The two observation channels the tracker reads: `observation[inv_strs
index]` (one row of bytes per inventory slot) and `observation[inv_oclasses
index]` (one object-class code per slot). -/
structure Observation where
  inv_strs : List (List Nat)
  inv_oclasses : List Nat
deriving DecidableEq

/-- Loop body of `_extract_snapshot`: one `(raw_line, oclass)` slot. -/
def extract_slot_step (snap : InventorySnapshot) (slot : List Nat × Nat) :
    InventorySnapshot :=
  if slot.2 = MAXOCLASSES then snap
  else if !slot.1.any (· != 0) then snap
  else
    let decoded := decode_line slot.1
    if decoded = "" then snap
    else
      let normalized := normalize_name decoded
      if normalized = "" then snap
      else
        let category_name := CATEGORY_NAMES slot.2
        { counts := Counter.add snap.counts normalized 1,
          categories := Counter.add snap.categories category_name 1,
          name_to_category := setdefault snap.name_to_category normalized category_name }

/-- `InventoryStatsTracker._extract_snapshot` on a present observation:
iterate `zip(inv_strs, inv_oclasses)`. -/
def extractObs (o : Observation) : InventorySnapshot :=
  (o.inv_strs.zip o.inv_oclasses).foldl extract_slot_step
    { counts := [], categories := [], name_to_category := [] }

/-- `InventoryStatsTracker._extract_snapshot`: `None` observation → `None`. -/
def extract_snapshot (observation : Option Observation) : Option InventorySnapshot :=
  match observation with
  | none => none
  | some o => some (extractObs o)

/-- The `InventoryStatsTracker` object: the two channel indices given to
`__init__` plus the per-episode state set by `_reset_stats`. -/
structure InventoryStatsTracker where
  inv_strs_index : Option Nat
  inv_oclasses_index : Option Nat
  pickups_by_name : Counter := []
  pickups_by_class : Counter := []
  uses_by_action : Counter := []
  uses_by_name : NestedCounter := []
  uses_by_class : NestedCounter := []
  items_by_name : StatsMap := []
  categories_by_name : StatsMap := []
  current_snapshot : Option InventorySnapshot := none
  pending_action_label : Option String := none
deriving DecidableEq

namespace InventoryStatsTracker

/-- `enabled()`. -/
def enabled (t : InventoryStatsTracker) : Bool :=
  t.inv_strs_index.isSome && t.inv_oclasses_index.isSome

/-- `_reset_stats()`. -/
def reset_stats (t : InventoryStatsTracker) : InventoryStatsTracker :=
  { t with pickups_by_name := [], pickups_by_class := [], uses_by_action := [],
           uses_by_name := [], uses_by_class := [], items_by_name := [],
           categories_by_name := [], current_snapshot := none,
           pending_action_label := none }

/-- `_record_acquisition(name, quantity, category)`.  `if category:` is a
truth test; `category` is `None` or a category label, and every label the
extractor produces is a non-empty string, so it is a `None` test. -/
def record_acquisition (t : InventoryStatsTracker) (name : String)
    (quantity : Int) (category : Option String) : InventoryStatsTracker :=
  if quantity ≤ 0 then t
  else
    let t1 := { t with pickups_by_name := Counter.add t.pickups_by_name name quantity }
    let t2 := match category with
      | some cat =>
        { t1 with pickups_by_class := Counter.add t1.pickups_by_class cat quantity,
                  categories_by_name := StatsMap.addAcquired t1.categories_by_name cat quantity }
      | none => t1
    { t2 with items_by_name := StatsMap.addAcquired t2.items_by_name name quantity }

/-- Loop body of `_register_pickups`: one `(name, count)` item of
`after.counts`. -/
def register_pickups_step (before after : InventorySnapshot)
    (t : InventoryStatsTracker) (entry : String × Int) : InventoryStatsTracker :=
  let diff := entry.2 - Counter.get before.counts entry.1
  if 0 < diff then
    t.record_acquisition entry.1 diff (lookupStr after.name_to_category entry.1)
  else t

/-- `_register_pickups(before, after)`. -/
def register_pickups (t : InventoryStatsTracker)
    (before after : InventorySnapshot) : InventoryStatsTracker :=
  after.counts.foldl (register_pickups_step before after) t

/-- Loop body of `_register_initial_inventory`. -/
def register_initial_step (snapshot : InventorySnapshot)
    (t : InventoryStatsTracker) (entry : String × Int) : InventoryStatsTracker :=
  t.record_acquisition entry.1 entry.2 (lookupStr snapshot.name_to_category entry.1)

/-- `_register_initial_inventory(snapshot)`. -/
def register_initial_inventory (t : InventoryStatsTracker)
    (snapshot : InventorySnapshot) : InventoryStatsTracker :=
  snapshot.counts.foldl (register_initial_step snapshot) t

/-- Loop body of `_register_usage`: one `(name, prev_count)` item of
`before.counts`; the `Bool` is the running `used_any` flag. -/
def register_usage_step (before after : InventorySnapshot) (action_label : String)
    (p : InventoryStatsTracker × Bool) (entry : String × Int) :
    InventoryStatsTracker × Bool :=
  let t := p.1
  let diff := entry.2 - Counter.get after.counts entry.1
  if 0 < diff then
    let t1 := { t with uses_by_action := Counter.add t.uses_by_action action_label diff,
                       uses_by_name := NestedCounter.add t.uses_by_name entry.1 action_label diff }
    let t2 := match lookupStr before.name_to_category entry.1 with
      | some cat =>
        { t1 with uses_by_class := NestedCounter.add t1.uses_by_class cat action_label diff,
                  categories_by_name :=
                    StatsMap.addAction t1.categories_by_name cat action_label diff }
      | none => t1
    ({ t2 with items_by_name := StatsMap.addAction t2.items_by_name entry.1 action_label diff },
     true)
  else p

/-- `_register_usage(action_label, before, after)`, returning the updated
state and `used_any`. -/
def register_usage (t : InventoryStatsTracker) (action_label : String)
    (before after : InventorySnapshot) : InventoryStatsTracker × Bool :=
  before.counts.foldl (register_usage_step before after action_label) (t, false)

/-- `start_episode(observation)`. -/
def start_episode (t : InventoryStatsTracker) (observation : Option Observation) :
    InventoryStatsTracker :=
  if !t.enabled then t
  else
    let t1 := t.reset_stats
    match extract_snapshot observation with
    | none => { t1 with current_snapshot := none }
    | some snapshot =>
      ({ t1 with current_snapshot := some snapshot }).register_initial_inventory
        snapshot

/-- `record_step(action_value, observation)`.  `if command_label:` and
`if used and self._pending_action_label:` are truth tests on `None`-or-label
values whose labels are non-empty strings; `self._pending_action_label or
action_label` picks the pending label when it is set. -/
def record_step (t : InventoryStatsTracker) (action_value : NhAction)
    (observation : Option Observation) : InventoryStatsTracker :=
  if !t.enabled then t
  else
    match t.current_snapshot with
    | none => { t with current_snapshot := extract_snapshot observation }
    | some current =>
      match extract_snapshot observation with
      | none => t
      | some next_snapshot =>
        let t1 := t.register_pickups current next_snapshot
        let t2 := match trackedCommandGet action_value with
          | some command_label => { t1 with pending_action_label := some command_label }
          | none => t1
        let action_label := action_to_label action_value
        let effective_label := t2.pending_action_label.getD action_label
        let p := t2.register_usage effective_label current next_snapshot
        let t3 := if p.2 && p.1.pending_action_label.isSome then
            { p.1 with pending_action_label := none }
          else p.1
        { t3 with current_snapshot := some next_snapshot }

/-- The pending-label update inside `record_step`: a tracked command becomes
the pending label, anything else leaves it alone. -/
def apply_pending (t1 : InventoryStatsTracker) (a : NhAction) : InventoryStatsTracker :=
  match trackedCommandGet a with
  | some command_label => { t1 with pending_action_label := some command_label }
  | none => t1

/-- The tail of `record_step`: clear the pending label when a usage was
attributed while one was set. -/
def clear_pending_if_used (p : InventoryStatsTracker × Bool) : InventoryStatsTracker :=
  if p.2 && p.1.pending_action_label.isSome then
    { p.1 with pending_action_label := none }
  else p.1

end InventoryStatsTracker

/-- A value of the metadata mapping `finalize_episode` returns: one of the
three shapes of JSON-ready sub-mapping the tracker emits. -/
inductive MetaVal where
  | counterVal (m : List (String × Int))
  | nestedVal (m : List (String × List (String × Int)))
  | statsVal (m : List (String × (Int × List (String × Int))))
deriving DecidableEq

/-- Python truthiness of a metadata value: a dict is falsy iff empty. -/
def MetaVal.isEmptyVal : MetaVal → Bool
  | .counterVal m => m.isEmpty
  | .nestedVal m => m.isEmpty
  | .statsVal m => m.isEmpty

/-- `InventoryStatsTracker._counter_to_dict`: keep non-zero entries. -/
def counter_to_dict (counter : Counter) : List (String × Int) :=
  match counter with
  | [] => []
  | (k, v) :: rest =>
    if v ≠ 0 then (k, v) :: counter_to_dict rest else counter_to_dict rest

/-- `InventoryStatsTracker._nested_counter_to_dict`: keep every inner entry,
drop outer keys whose inner dict is empty. -/
def nested_counter_to_dict (nested : NestedCounter) : List (String × List (String × Int)) :=
  match nested with
  | [] => []
  | (k, c) :: rest =>
    if c.isEmpty then nested_counter_to_dict rest
    else (k, c) :: nested_counter_to_dict rest

/-- `InventoryStatsTracker._stats_to_dict`: per key a
`{"acquired": _, "actions": _}` record, kept when either part is non-trivial. -/
def stats_to_dict (mapping : StatsMap) : List (String × (Int × List (String × Int))) :=
  match mapping with
  | [] => []
  | (k, s) :: rest =>
    let actions := counter_to_dict s.actions
    if s.acquired ≠ 0 ∨ actions ≠ [] then
      (k, (s.acquired, actions)) :: stats_to_dict rest
    else stats_to_dict rest

namespace InventoryStatsTracker

/-- `finalize_episode()`: the metadata mapping in insertion order, plus the
post-call tracker state (the method mutates `self` through `_reset_stats`). -/
def finalize_episode (t : InventoryStatsTracker) :
    InventoryStatsTracker × List (String × MetaVal) :=
  if !t.enabled then (t, [])
  else
    let metadata : List (String × MetaVal) :=
      [("inv_pickups_by_name", .counterVal (counter_to_dict t.pickups_by_name)),
       ("inv_pickups_by_class", .counterVal (counter_to_dict t.pickups_by_class)),
       ("inv_uses_by_action", .counterVal (counter_to_dict t.uses_by_action)),
       ("inv_uses_by_name", .nestedVal (nested_counter_to_dict t.uses_by_name)),
       ("inv_uses_by_class", .nestedVal (nested_counter_to_dict t.uses_by_class)),
       ("inv_by_name", .statsVal (stats_to_dict t.items_by_name)),
       ("inv_by_category", .statsVal (stats_to_dict t.categories_by_name))]
    let has_data := metadata.any (fun kv => !kv.2.isEmptyVal)
    (t.reset_stats, if has_data then metadata else [])

end InventoryStatsTracker

/-- An episode's step phase: fold `record_step` over a list of
`(action, observation)` pairs. -/
def runSteps (t : InventoryStatsTracker)
    (steps : List (NhAction × Option Observation)) : InventoryStatsTracker :=
  steps.foldl (fun t s => t.record_step s.1 s.2) t

/-- The positive part of an integer (a positive delta, else zero). -/
def posOr0 (x : Int) : Int :=
  if 0 < x then x else 0

/-- The snapshots successfully extracted during a list of steps (a `none`
observation extracts nothing and is skipped). -/
def extractedSnaps (steps : List (NhAction × Option Observation)) :
    List InventorySnapshot :=
  steps.filterMap (fun s => extract_snapshot s.2)

/-- Sum over consecutive snapshot pairs of the positive per-name delta of
`n`, starting the chain at `prev`. -/
def posDeltaSum (prev : InventorySnapshot) (snaps : List InventorySnapshot)
    (n : String) : Int :=
  match snaps with
  | [] => 0
  | s :: rest =>
    posOr0 (Counter.get s.counts n - Counter.get prev.counts n) + posDeltaSum s rest n

/-- The snapshot playing the role of "previous snapshot" for each
consecutive pair of the chain `prev :: snaps`. -/
def prevSnaps (prev : InventorySnapshot) (snaps : List InventorySnapshot) :
    List InventorySnapshot :=
  match snaps with
  | [] => []
  | s :: rest => prev :: prevSnaps s rest

/-- Every stored value of the counter is positive. -/
def PosCounter (c : Counter) : Prop :=
  ∀ kv ∈ c, 0 < kv.2

instance (c : Counter) : Decidable (PosCounter c) := by
  unfold PosCounter
  infer_instance

/-- Every inner counter of the nested counter is positive-valued. -/
def PosNested (m : NestedCounter) : Prop :=
  ∀ kc ∈ m, PosCounter kc.2

instance (m : NestedCounter) : Decidable (PosNested m) := by
  unfold PosNested PosCounter
  infer_instance

/-- Every `actions` counter of the stats mapping is positive-valued. -/
def StatsActionsPos (m : StatsMap) : Prop :=
  ∀ ks ∈ m, PosCounter ks.2.actions

instance (m : StatsMap) : Decidable (StatsActionsPos m) := by
  unfold StatsActionsPos PosCounter
  infer_instance

/-- A well-formed snapshot: unique names with positive stored counts (every
snapshot the extractor builds satisfies this, its counts growing from the
empty counter by `+1` updates). -/
def SnapOk (s : InventorySnapshot) : Prop :=
  (Counter.keys s.counts).Nodup ∧ PosCounter s.counts

instance (s : InventorySnapshot) : Decidable (SnapOk s) := by
  unfold SnapOk
  infer_instance

/-- All usage counters of the tracker hold only positive quantities. -/
def UsagePos (t : InventoryStatsTracker) : Prop :=
  PosCounter t.uses_by_action ∧ PosNested t.uses_by_name ∧
    PosNested t.uses_by_class ∧ StatsActionsPos t.items_by_name ∧
    StatsActionsPos t.categories_by_name

/-- All counters of the tracker hold only positive quantities. -/
def GoodState (t : InventoryStatsTracker) : Prop :=
  PosCounter t.pickups_by_name ∧ PosCounter t.pickups_by_class ∧ UsagePos t

/-- Zero-less output predicate for a metadata value: no stored quantity in
the sub-mapping (inner quantities for the nested shapes, `actions`
quantities for the stats shape) is zero. -/
def MetaVal.noZero : MetaVal → Prop
  | .counterVal m => ∀ kv ∈ m, kv.2 ≠ 0
  | .nestedVal m => ∀ kc ∈ m, ∀ kv ∈ kc.2, kv.2 ≠ 0
  | .statsVal m => ∀ ks ∈ m, ∀ kv ∈ ks.2.2, kv.2 ≠ 0

/-- Sum of the stored values of a counter (`sum(counter.values())`). -/
def counterSum (c : Counter) : Int :=
  match c with
  | [] => 0
  | (_, v) :: rest => v + counterSum rest

/-- Per-entry positive-delta contribution of the entry list `L` against the
reference snapshot `s`, restricted to the name `n` (the quantity the pickup
or usage loops add for `n` while iterating over `L`). -/
def diffContrib (s : InventorySnapshot) (L : List (String × Int)) (n : String) : Int :=
  match L with
  | [] => 0
  | (k, c) :: rest =>
    (if n = k then posOr0 (c - Counter.get s.counts k) else 0) + diffContrib s rest n

/-- Total positive-delta contribution of `L` against `s`, all names together. -/
def diffTotal (s : InventorySnapshot) (L : List (String × Int)) : Int :=
  match L with
  | [] => 0
  | (k, c) :: rest => posOr0 (c - Counter.get s.counts k) + diffTotal s rest

/-- Per-entry contribution of the initial-inventory loop for the name `n`. -/
def initContrib (L : List (String × Int)) (n : String) : Int :=
  match L with
  | [] => 0
  | (k, c) :: rest => (if n = k then posOr0 c else 0) + initContrib rest n

/-- ASCII bytes of a string (a concrete inventory line for examples). -/
def strBytes (s : String) : List Nat := s.toList.map Char.toNat

/-- Example observation: a dagger (weapon class) and a food ration (food class). -/
def oEx1 : Observation :=
  { inv_strs := [strBytes "a - a dagger", strBytes "b - a food ration"],
    inv_oclasses := [2, 7] }

/-- Example observation: only the dagger remains. -/
def oEx2 : Observation :=
  { inv_strs := [strBytes "a - a dagger"], inv_oclasses := [2] }

/-- An enabled tracker fresh out of `__init__`. -/
def tEx0 : InventoryStatsTracker :=
  { inv_strs_index := some 0, inv_oclasses_index := some 1 }

/-- An enabled tracker holding the two-item snapshot as its current one. -/
def tEx1 : InventoryStatsTracker :=
  { tEx0 with current_snapshot := some (extractObs oEx1) }

/-- Example step list: an `EAT` command after which the food ration is gone. -/
def stepsEx : List (NhAction × Option Observation) :=
  [(NhAction.Command "EAT", some oEx2)]

theorem Counter.get_add (c : Counter) (k : String) (v : Int) (n : String) :
    Counter.get (Counter.add c k v) n =
      Counter.get c n + (if n = k then v else 0) := by
  induction c with
  | nil =>
    by_cases h : n = k
    · simp [Counter.add, Counter.get, h]
    · have h' : ¬k = n := fun hh => h hh.symm
      simp [Counter.add, Counter.get, h, h']
  | cons kv rest ih =>
    obtain ⟨k', v'⟩ := kv
    by_cases hk : k' = k
    · subst hk
      by_cases hn : k' = n
      · subst hn
        simp [Counter.add, Counter.get]
      · have hn' : ¬n = k' := fun hh => hn hh.symm
        simp [Counter.add, Counter.get, hn, hn']
    · by_cases hn : k' = n
      · have hnk : ¬n = k := fun hh => hk (hn.trans hh)
        simp [Counter.add, Counter.get, hk, hn, hnk]
      · simp [Counter.add, Counter.get, hk, hn, ih]

theorem counterSum_add (c : Counter) (k : String) (v : Int) :
    counterSum (Counter.add c k v) = counterSum c + v := by
  induction c with
  | nil => simp [Counter.add, counterSum]
  | cons kv rest ih =>
    obtain ⟨k', v'⟩ := kv
    by_cases hk : k' = k
    · simp [Counter.add, counterSum, hk]
      ring
    · simp [Counter.add, counterSum, hk, ih]
      ring

theorem Counter.mem_keys_iff (c : Counter) (n : String) :
    n ∈ Counter.keys c ↔ ∃ v, (n, v) ∈ c := by
  induction c with
  | nil => simp [Counter.keys]
  | cons kv rest ih =>
    obtain ⟨k', v'⟩ := kv
    constructor
    · intro h
      rcases List.mem_cons.mp h with h | h
      · exact ⟨v', by simp [h]⟩
      · obtain ⟨v, hv⟩ := ih.mp h
        exact ⟨v, List.mem_cons_of_mem _ hv⟩
    · rintro ⟨v, hv⟩
      rcases List.mem_cons.mp hv with h | h
      · simp [Counter.keys, (Prod.mk.injEq _ _ _ _).mp h]
      · exact List.mem_cons_of_mem _ (ih.mpr ⟨v, h⟩)

theorem Counter.get_of_not_mem_keys (c : Counter) (n : String)
    (h : n ∉ Counter.keys c) : Counter.get c n = 0 := by
  induction c with
  | nil => simp [Counter.get]
  | cons kv rest ih =>
    obtain ⟨k', v'⟩ := kv
    have hne : ¬k' = n := by
      intro hh
      exact h (by simp [Counter.keys, hh])
    have hrest : n ∉ Counter.keys rest := by
      intro hh
      exact h (by simp [Counter.keys, hh])
    simp [Counter.get, hne, ih hrest]

theorem Counter.get_of_mem (c : Counter) (k : String) (v : Int)
    (hnd : (Counter.keys c).Nodup) (h : (k, v) ∈ c) : Counter.get c k = v := by
  induction c with
  | nil => simp at h
  | cons kv rest ih =>
    obtain ⟨k', v'⟩ := kv
    have hnd' : (Counter.keys rest).Nodup ∧ k' ∉ Counter.keys rest := by
      have := hnd
      simp [Counter.keys, List.nodup_cons] at this
      exact ⟨this.2, this.1⟩
    rcases List.mem_cons.mp h with h | h
    · obtain ⟨h1, h2⟩ := (Prod.mk.injEq _ _ _ _).mp h.symm
      simp [Counter.get, h1, h2]
    · have hk : ¬k' = k := by
        intro hh
        subst hh
        exact hnd'.2 ((Counter.mem_keys_iff rest k').mpr ⟨v, h⟩)
      simp [Counter.get, hk, ih hnd'.1 h]

theorem Counter.get_nonneg (c : Counter) (n : String) (h : PosCounter c) :
    0 ≤ Counter.get c n := by
  induction c with
  | nil => simp [Counter.get]
  | cons kv rest ih =>
    obtain ⟨k', v'⟩ := kv
    by_cases hk : k' = n
    · have := h (k', v') (List.mem_cons_self _ _)
      simp [Counter.get, hk]
      omega
    · have hrest : PosCounter rest := fun kv hkv => h kv (List.mem_cons_of_mem _ hkv)
      simp [Counter.get, hk, ih hrest]

theorem Counter.get_pos_of_mem_pos (c : Counter) (n : String)
    (hnd : (Counter.keys c).Nodup) (hpos : PosCounter c)
    (h : n ∈ Counter.keys c) : 0 < Counter.get c n := by
  obtain ⟨v, hv⟩ := (Counter.mem_keys_iff c n).mp h
  rw [Counter.get_of_mem c n v hnd hv]
  exact hpos (n, v) hv

theorem Counter.posCounter_add (c : Counter) (k : String) (v : Int)
    (hc : PosCounter c) (hv : 0 < v) : PosCounter (Counter.add c k v) := by
  induction c with
  | nil =>
    intro kv hkv
    simp [Counter.add] at hkv
    simp [hkv, hv]
  | cons kv0 rest ih =>
    obtain ⟨k', v'⟩ := kv0
    have hv' : 0 < v' := hc (k', v') (List.mem_cons_self _ _)
    have hrest : PosCounter rest := fun kv hkv => hc kv (List.mem_cons_of_mem _ hkv)
    intro kv hkv
    by_cases hk : k' = k
    · simp [Counter.add, hk] at hkv
      rcases hkv with h | h
      · simp [h]
        omega
      · exact hrest kv h
    · simp [Counter.add, hk] at hkv
      rcases hkv with h | h
      · simp [h, hv']
      · exact ih hrest kv h

theorem Counter.keys_add (c : Counter) (k : String) (v : Int) :
    Counter.keys (Counter.add c k v) =
      if k ∈ Counter.keys c then Counter.keys c else Counter.keys c ++ [k] := by
  induction c with
  | nil => simp [Counter.add, Counter.keys]
  | cons kv rest ih =>
    obtain ⟨k', v'⟩ := kv
    by_cases hk : k' = k
    · subst hk
      simp [Counter.add, Counter.keys]
    · have hk' : ¬k = k' := fun hh => hk hh.symm
      by_cases hm : k ∈ Counter.keys rest
      · simp [Counter.add, Counter.keys, hk, hm, hk', ih]
      · simp [Counter.add, Counter.keys, hk, hm, hk', ih]

theorem Counter.nodup_add (c : Counter) (k : String) (v : Int)
    (hnd : (Counter.keys c).Nodup) : (Counter.keys (Counter.add c k v)).Nodup := by
  rw [Counter.keys_add]
  by_cases hm : k ∈ Counter.keys c
  · simp [hm, hnd]
  · simp [hm, List.nodup_append, hnd]

theorem Counter.mem_keys_add (c : Counter) (k : String) (v : Int) (n : String)
    (h : n ∈ Counter.keys (Counter.add c k v)) : n ∈ Counter.keys c ∨ n = k := by
  rw [Counter.keys_add] at h
  by_cases hm : k ∈ Counter.keys c
  · simp [hm] at h
    exact Or.inl h
  · simp [hm] at h
    exact h

theorem NestedCounter.get_of_add (m : NestedCounter) (k1 k2 : String) (v : Int)
    (n l : String) :
    NestedCounter.get (NestedCounter.add m k1 k2 v) n l =
      NestedCounter.get m n l + (if n = k1 ∧ l = k2 then v else 0) := by
  induction m with
  | nil =>
    by_cases hn : k1 = n
    · subst hn
      simp [NestedCounter.add, NestedCounter.get, NestedCounter.getC,
        Counter.get_add, Counter.get]
    · have hn' : ¬n = k1 := fun hh => hn hh.symm
      simp [NestedCounter.add, NestedCounter.get, NestedCounter.getC,
        Counter.get, hn, hn']
  | cons kc rest ih =>
    obtain ⟨k, c⟩ := kc
    by_cases hk : k = k1
    · subst hk
      by_cases hn : k = n
      · subst hn
        simp [NestedCounter.add, NestedCounter.get, NestedCounter.getC,
          Counter.get_add]
      · have hn' : ¬n = k := fun hh => hn hh.symm
        simp [NestedCounter.add, NestedCounter.get, NestedCounter.getC, hn, hn']
    · by_cases hn : k = n
      · have hnk : ¬n = k1 := fun hh => hk (hn.trans hh)
        simp [NestedCounter.add, NestedCounter.get, NestedCounter.getC,
          hk, hn, hnk]
      · have h1 : NestedCounter.add ((k, c) :: rest) k1 k2 v =
            (k, c) :: NestedCounter.add rest k1 k2 v := by
          simp [NestedCounter.add, hk]
        have h2 : ∀ (tail : NestedCounter),
            NestedCounter.get ((k, c) :: tail) n l = NestedCounter.get tail n l := by
          intro tail
          simp [NestedCounter.get, NestedCounter.getC, hn]
        rw [h1, h2, h2, ih]

theorem NestedCounter.keys_add_mem (m : NestedCounter) (k1 k2 : String) (v : Int)
    (n : String) (h : n ∈ NestedCounter.keys (NestedCounter.add m k1 k2 v)) :
    n ∈ NestedCounter.keys m ∨ n = k1 := by
  induction m with
  | nil =>
    simp [NestedCounter.add, NestedCounter.keys] at h
    exact Or.inr h
  | cons kc rest ih =>
    obtain ⟨k, c⟩ := kc
    by_cases hk : k = k1
    · simp [NestedCounter.add, NestedCounter.keys, hk] at h ⊢
      rcases h with h | h
      · exact Or.inl (Or.inl h)
      · exact Or.inl (Or.inr h)
    · simp [NestedCounter.add, NestedCounter.keys, hk] at h ⊢
      rcases h with h | h
      · exact Or.inl (Or.inl h)
      · rcases ih h with h2 | h2
        · exact Or.inl (Or.inr h2)
        · exact Or.inr h2

theorem NestedCounter.posNested_add (m : NestedCounter) (k1 k2 : String) (v : Int)
    (hm : PosNested m) (hv : 0 < v) : PosNested (NestedCounter.add m k1 k2 v) := by
  induction m with
  | nil =>
    intro kc hkc
    simp [NestedCounter.add] at hkc
    subst hkc
    intro kv hkv
    simp [Counter.add] at hkv
    simp [hkv, hv]
  | cons kc0 rest ih =>
    obtain ⟨k, c⟩ := kc0
    have hc : PosCounter c := hm (k, c) (List.mem_cons_self _ _)
    have hrest : PosNested rest := fun kc hkc => hm kc (List.mem_cons_of_mem _ hkc)
    intro kc hkc
    by_cases hk : k = k1
    · simp [NestedCounter.add, hk] at hkc
      rcases hkc with h | h
      · subst h
        exact Counter.posCounter_add c k2 v hc hv
      · exact hrest kc h
    · simp [NestedCounter.add, hk] at hkc
      rcases hkc with h | h
      · subst h
        exact hc
      · exact ih hrest kc h

theorem StatsMap.actionsPos_addAcquired (m : StatsMap) (k : String) (q : Int)
    (hm : StatsActionsPos m) : StatsActionsPos (StatsMap.addAcquired m k q) := by
  induction m with
  | nil =>
    intro ks hks
    simp [StatsMap.addAcquired] at hks
    subst hks
    intro kv hkv
    simp at hkv
  | cons ks0 rest ih =>
    obtain ⟨k', s⟩ := ks0
    have hs : PosCounter s.actions := hm (k', s) (List.mem_cons_self _ _)
    have hrest : StatsActionsPos rest := fun ks hks => hm ks (List.mem_cons_of_mem _ hks)
    intro ks hks
    by_cases hk : k' = k
    · simp [StatsMap.addAcquired, hk] at hks
      rcases hks with h | h
      · subst h
        exact hs
      · exact hrest ks h
    · simp [StatsMap.addAcquired, hk] at hks
      rcases hks with h | h
      · subst h
        exact hs
      · exact ih hrest ks h

theorem StatsMap.actionsPos_addAction (m : StatsMap) (k lbl : String) (q : Int)
    (hm : StatsActionsPos m) (hq : 0 < q) :
    StatsActionsPos (StatsMap.addAction m k lbl q) := by
  induction m with
  | nil =>
    intro ks hks
    simp [StatsMap.addAction] at hks
    subst hks
    intro kv hkv
    simp [Counter.add] at hkv
    simp [hkv, hq]
  | cons ks0 rest ih =>
    obtain ⟨k', s⟩ := ks0
    have hs : PosCounter s.actions := hm (k', s) (List.mem_cons_self _ _)
    have hrest : StatsActionsPos rest := fun ks hks => hm ks (List.mem_cons_of_mem _ hks)
    intro ks hks
    by_cases hk : k' = k
    · simp [StatsMap.addAction, hk] at hks
      rcases hks with h | h
      · subst h
        exact Counter.posCounter_add s.actions lbl q hs hq
      · exact hrest ks h
    · simp [StatsMap.addAction, hk] at hks
      rcases hks with h | h
      · subst h
        exact hs
      · exact ih hrest ks h

theorem snapOk_extract_slot_step (snap : InventorySnapshot) (slot : List Nat × Nat)
    (h : SnapOk snap) : SnapOk (extract_slot_step snap slot) := by
  obtain ⟨hnd, hpos⟩ := h
  simp only [extract_slot_step]
  split_ifs <;>
    first
      | exact ⟨hnd, hpos⟩
      | exact ⟨Counter.nodup_add _ _ _ hnd,
          Counter.posCounter_add _ _ _ hpos Int.one_pos⟩

theorem snapOk_foldl (slots : List (List Nat × Nat)) :
    ∀ snap, SnapOk snap → SnapOk (slots.foldl extract_slot_step snap) := by
  induction slots with
  | nil => intro snap h; simpa using h
  | cons s rest ih =>
    intro snap h
    simp only [List.foldl_cons]
    exact ih _ (snapOk_extract_slot_step snap s h)

theorem snapOk_extractObs (o : Observation) : SnapOk (extractObs o) := by
  apply snapOk_foldl
  exact ⟨by simp [Counter.keys], fun kv hkv => by simp at hkv⟩

theorem sums_extract_slot_step (snap : InventorySnapshot) (slot : List Nat × Nat)
    (h : counterSum snap.counts = counterSum snap.categories) :
    counterSum (extract_slot_step snap slot).counts =
      counterSum (extract_slot_step snap slot).categories := by
  simp only [extract_slot_step]
  split_ifs <;> simp [counterSum_add, h]

theorem sums_foldl (slots : List (List Nat × Nat)) :
    ∀ snap, counterSum snap.counts = counterSum snap.categories →
      counterSum (slots.foldl extract_slot_step snap).counts =
        counterSum (slots.foldl extract_slot_step snap).categories := by
  induction slots with
  | nil => intro snap h; simpa using h
  | cons s rest ih =>
    intro snap h
    simp only [List.foldl_cons]
    exact ih _ (sums_extract_slot_step snap s h)

theorem diffContrib_of_not_mem (s : InventorySnapshot) (L : List (String × Int))
    (n : String) (h : n ∉ Counter.keys L) : diffContrib s L n = 0 := by
  induction L with
  | nil => simp [diffContrib]
  | cons kc rest ih =>
    obtain ⟨k, c⟩ := kc
    have hk : ¬n = k := fun hh => h (by simp [Counter.keys, hh])
    have hrest : n ∉ Counter.keys rest := fun hh => h (by simp [Counter.keys, hh])
    simp [diffContrib, hk, ih hrest]

theorem diffContrib_eq (s : InventorySnapshot) (L : List (String × Int)) (n : String)
    (hnd : (Counter.keys L).Nodup) (hpos : PosCounter L)
    (hs : 0 ≤ Counter.get s.counts n) :
    diffContrib s L n = posOr0 (Counter.get L n - Counter.get s.counts n) := by
  induction L with
  | nil =>
    simp only [diffContrib, Counter.get, posOr0]
    split_ifs with h
    · omega
    · rfl
  | cons kc rest ih =>
    obtain ⟨k, c⟩ := kc
    have hnd' : (Counter.keys rest).Nodup ∧ k ∉ Counter.keys rest := by
      have := hnd
      simp [Counter.keys, List.nodup_cons] at this
      exact ⟨this.2, this.1⟩
    have hrest : PosCounter rest := fun kv hkv => hpos kv (List.mem_cons_of_mem _ hkv)
    by_cases hn : n = k
    · subst hn
      rw [show diffContrib s ((n, c) :: rest) n =
          posOr0 (c - Counter.get s.counts n) + diffContrib s rest n by
            simp [diffContrib]]
      rw [diffContrib_of_not_mem s rest n hnd'.2]
      simp [Counter.get]
    · have hn' : ¬k = n := fun hh => hn hh.symm
      simp only [diffContrib, if_neg hn]
      rw [ih hnd'.1 hrest]
      simp [Counter.get, hn']

theorem initContrib_of_not_mem (L : List (String × Int)) (n : String)
    (h : n ∉ Counter.keys L) : initContrib L n = 0 := by
  induction L with
  | nil => simp [initContrib]
  | cons kc rest ih =>
    obtain ⟨k, c⟩ := kc
    have hk : ¬n = k := fun hh => h (by simp [Counter.keys, hh])
    have hrest : n ∉ Counter.keys rest := fun hh => h (by simp [Counter.keys, hh])
    simp [initContrib, hk, ih hrest]

theorem initContrib_eq (L : List (String × Int)) (n : String)
    (hnd : (Counter.keys L).Nodup) (hpos : PosCounter L) :
    initContrib L n = Counter.get L n := by
  induction L with
  | nil => simp [initContrib, Counter.get]
  | cons kc rest ih =>
    obtain ⟨k, c⟩ := kc
    have hnd' : (Counter.keys rest).Nodup ∧ k ∉ Counter.keys rest := by
      have := hnd
      simp [Counter.keys, List.nodup_cons] at this
      exact ⟨this.2, this.1⟩
    have hrest : PosCounter rest := fun kv hkv => hpos kv (List.mem_cons_of_mem _ hkv)
    have hc : 0 < c := hpos (k, c) (List.mem_cons_self _ _)
    by_cases hn : n = k
    · subst hn
      rw [show initContrib ((n, c) :: rest) n = posOr0 c + initContrib rest n by
        simp [initContrib]]
      rw [initContrib_of_not_mem rest n hnd'.2]
      simp [Counter.get, posOr0, hc]
    · have hn' : ¬k = n := fun hh => hn hh.symm
      simp only [initContrib, if_neg hn]
      rw [ih hnd'.1 hrest]
      simp [Counter.get, hn']

namespace InventoryStatsTracker

theorem record_acquisition_frame (t : InventoryStatsTracker) (name : String)
    (q : Int) (cat : Option String) :
    (t.record_acquisition name q cat).uses_by_action = t.uses_by_action ∧
    (t.record_acquisition name q cat).uses_by_name = t.uses_by_name ∧
    (t.record_acquisition name q cat).uses_by_class = t.uses_by_class ∧
    (t.record_acquisition name q cat).current_snapshot = t.current_snapshot ∧
    (t.record_acquisition name q cat).pending_action_label = t.pending_action_label ∧
    (t.record_acquisition name q cat).inv_strs_index = t.inv_strs_index ∧
    (t.record_acquisition name q cat).inv_oclasses_index = t.inv_oclasses_index := by
  cases cat <;> by_cases hq : q ≤ 0 <;>
    simp [record_acquisition, hq]

theorem record_acquisition_pickups_get (t : InventoryStatsTracker) (name : String)
    (q : Int) (cat : Option String) (n : String) :
    Counter.get (t.record_acquisition name q cat).pickups_by_name n =
      Counter.get t.pickups_by_name n + (if n = name then posOr0 q else 0) := by
  by_cases hq : q ≤ 0
  · have h0 : posOr0 q = 0 := by simp [posOr0]; omega
    simp [record_acquisition, hq, h0]
  · have h0 : posOr0 q = q := by simp [posOr0]; omega
    cases cat <;> simp [record_acquisition, hq, Counter.get_add, h0]

theorem record_acquisition_good (t : InventoryStatsTracker) (name : String)
    (q : Int) (cat : Option String) (h : GoodState t) :
    GoodState (t.record_acquisition name q cat) := by
  obtain ⟨hp1, hp2, hu1, hu2, hu3, hs1, hs2⟩ := h
  by_cases hq : q ≤ 0
  · simp only [record_acquisition, if_pos hq]
    exact ⟨hp1, hp2, hu1, hu2, hu3, hs1, hs2⟩
  · have h0 : 0 < q := by omega
    cases cat with
    | none =>
      simp only [record_acquisition, if_neg hq]
      exact ⟨Counter.posCounter_add _ _ _ hp1 h0, hp2, hu1, hu2, hu3,
        StatsMap.actionsPos_addAcquired _ _ _ hs1, hs2⟩
    | some c =>
      simp only [record_acquisition, if_neg hq]
      exact ⟨Counter.posCounter_add _ _ _ hp1 h0,
        Counter.posCounter_add _ _ _ hp2 h0, hu1, hu2, hu3,
        StatsMap.actionsPos_addAcquired _ _ _ hs1,
        StatsMap.actionsPos_addAcquired _ _ _ hs2⟩

theorem register_pickups_step_frame (before after : InventorySnapshot)
    (t : InventoryStatsTracker) (entry : String × Int) :
    (register_pickups_step before after t entry).uses_by_action = t.uses_by_action ∧
    (register_pickups_step before after t entry).uses_by_name = t.uses_by_name ∧
    (register_pickups_step before after t entry).uses_by_class = t.uses_by_class ∧
    (register_pickups_step before after t entry).current_snapshot = t.current_snapshot ∧
    (register_pickups_step before after t entry).pending_action_label =
      t.pending_action_label ∧
    (register_pickups_step before after t entry).inv_strs_index = t.inv_strs_index ∧
    (register_pickups_step before after t entry).inv_oclasses_index =
      t.inv_oclasses_index := by
  simp only [register_pickups_step]
  split_ifs
  · exact record_acquisition_frame t entry.1 _ _
  · exact ⟨rfl, rfl, rfl, rfl, rfl, rfl, rfl⟩

theorem register_pickups_fold_frame (before after : InventorySnapshot)
    (L : List (String × Int)) :
    ∀ (t : InventoryStatsTracker),
    ((L.foldl (register_pickups_step before after) t).uses_by_action =
      t.uses_by_action) ∧
    ((L.foldl (register_pickups_step before after) t).uses_by_name =
      t.uses_by_name) ∧
    ((L.foldl (register_pickups_step before after) t).uses_by_class =
      t.uses_by_class) ∧
    ((L.foldl (register_pickups_step before after) t).current_snapshot =
      t.current_snapshot) ∧
    ((L.foldl (register_pickups_step before after) t).pending_action_label =
      t.pending_action_label) ∧
    ((L.foldl (register_pickups_step before after) t).inv_strs_index =
      t.inv_strs_index) ∧
    ((L.foldl (register_pickups_step before after) t).inv_oclasses_index =
      t.inv_oclasses_index) := by
  induction L with
  | nil => intro t; exact ⟨rfl, rfl, rfl, rfl, rfl, rfl, rfl⟩
  | cons kc rest ih =>
    intro t
    obtain ⟨e1, e2, e3, e4, e5, e6, e7⟩ := ih (register_pickups_step before after t kc)
    obtain ⟨f1, f2, f3, f4, f5, f6, f7⟩ := register_pickups_step_frame before after t kc
    simp only [List.foldl_cons]
    exact ⟨e1.trans f1, e2.trans f2, e3.trans f3, e4.trans f4, e5.trans f5,
      e6.trans f6, e7.trans f7⟩

theorem register_pickups_frame (t : InventoryStatsTracker)
    (before after : InventorySnapshot) :
    (t.register_pickups before after).uses_by_action = t.uses_by_action ∧
    (t.register_pickups before after).uses_by_name = t.uses_by_name ∧
    (t.register_pickups before after).uses_by_class = t.uses_by_class ∧
    (t.register_pickups before after).current_snapshot = t.current_snapshot ∧
    (t.register_pickups before after).pending_action_label = t.pending_action_label ∧
    (t.register_pickups before after).inv_strs_index = t.inv_strs_index ∧
    (t.register_pickups before after).inv_oclasses_index = t.inv_oclasses_index :=
  register_pickups_fold_frame before after after.counts t

theorem register_pickups_fold_get (before after : InventorySnapshot)
    (L : List (String × Int)) :
    ∀ (t : InventoryStatsTracker) (n : String),
      Counter.get (L.foldl (register_pickups_step before after) t).pickups_by_name n =
        Counter.get t.pickups_by_name n + diffContrib before L n := by
  induction L with
  | nil => intro t n; simp [diffContrib]
  | cons kc rest ih =>
    intro t n
    obtain ⟨k, c⟩ := kc
    simp only [List.foldl_cons]
    rw [ih]
    have hstep : Counter.get (register_pickups_step before after t (k, c)).pickups_by_name n =
        Counter.get t.pickups_by_name n +
          (if n = k then posOr0 (c - Counter.get before.counts k) else 0) := by
      by_cases hd : 0 < c - Counter.get before.counts k
      · rw [show register_pickups_step before after t (k, c) =
            t.record_acquisition k (c - Counter.get before.counts k)
              (lookupStr after.name_to_category k) by
          simp [register_pickups_step, hd]]
        rw [record_acquisition_pickups_get]
      · rw [show register_pickups_step before after t (k, c) = t by
          simp [register_pickups_step, hd]]
        have h0 : posOr0 (c - Counter.get before.counts k) = 0 := by
          unfold posOr0
          rw [if_neg hd]
        rw [h0]
        simp
    rw [hstep]
    simp only [diffContrib]
    ring

theorem register_pickups_get (t : InventoryStatsTracker)
    (before after : InventorySnapshot) (n : String) (hA : SnapOk after)
    (hb : 0 ≤ Counter.get before.counts n) :
    Counter.get (t.register_pickups before after).pickups_by_name n =
      Counter.get t.pickups_by_name n +
        posOr0 (Counter.get after.counts n - Counter.get before.counts n) := by
  rw [show t.register_pickups before after =
    after.counts.foldl (register_pickups_step before after) t from rfl]
  rw [register_pickups_fold_get before after after.counts t n]
  rw [diffContrib_eq before after.counts n hA.1 hA.2 hb]

theorem register_pickups_good (t : InventoryStatsTracker)
    (before after : InventorySnapshot) (h : GoodState t) :
    GoodState (t.register_pickups before after) := by
  rw [show t.register_pickups before after =
    after.counts.foldl (register_pickups_step before after) t from rfl]
  induction after.counts generalizing t with
  | nil => simpa using h
  | cons kc rest ih =>
    simp only [List.foldl_cons]
    apply ih
    simp only [register_pickups_step]
    split_ifs
    · exact record_acquisition_good _ _ _ _ h
    · exact h

theorem register_initial_step_frame (snapshot : InventorySnapshot)
    (t : InventoryStatsTracker) (entry : String × Int) :
    (register_initial_step snapshot t entry).uses_by_action = t.uses_by_action ∧
    (register_initial_step snapshot t entry).uses_by_name = t.uses_by_name ∧
    (register_initial_step snapshot t entry).uses_by_class = t.uses_by_class ∧
    (register_initial_step snapshot t entry).current_snapshot = t.current_snapshot ∧
    (register_initial_step snapshot t entry).pending_action_label =
      t.pending_action_label ∧
    (register_initial_step snapshot t entry).inv_strs_index = t.inv_strs_index ∧
    (register_initial_step snapshot t entry).inv_oclasses_index =
      t.inv_oclasses_index :=
  record_acquisition_frame t entry.1 entry.2 _

theorem register_initial_fold_frame (snapshot : InventorySnapshot)
    (L : List (String × Int)) :
    ∀ (t : InventoryStatsTracker),
    ((L.foldl (register_initial_step snapshot) t).uses_by_action =
      t.uses_by_action) ∧
    ((L.foldl (register_initial_step snapshot) t).uses_by_name = t.uses_by_name) ∧
    ((L.foldl (register_initial_step snapshot) t).uses_by_class = t.uses_by_class) ∧
    ((L.foldl (register_initial_step snapshot) t).current_snapshot =
      t.current_snapshot) ∧
    ((L.foldl (register_initial_step snapshot) t).pending_action_label =
      t.pending_action_label) ∧
    ((L.foldl (register_initial_step snapshot) t).inv_strs_index =
      t.inv_strs_index) ∧
    ((L.foldl (register_initial_step snapshot) t).inv_oclasses_index =
      t.inv_oclasses_index) := by
  induction L with
  | nil => intro t; exact ⟨rfl, rfl, rfl, rfl, rfl, rfl, rfl⟩
  | cons kc rest ih =>
    intro t
    obtain ⟨e1, e2, e3, e4, e5, e6, e7⟩ := ih (register_initial_step snapshot t kc)
    obtain ⟨f1, f2, f3, f4, f5, f6, f7⟩ := register_initial_step_frame snapshot t kc
    simp only [List.foldl_cons]
    exact ⟨e1.trans f1, e2.trans f2, e3.trans f3, e4.trans f4, e5.trans f5,
      e6.trans f6, e7.trans f7⟩

theorem register_initial_frame (t : InventoryStatsTracker)
    (snapshot : InventorySnapshot) :
    (t.register_initial_inventory snapshot).uses_by_action = t.uses_by_action ∧
    (t.register_initial_inventory snapshot).uses_by_name = t.uses_by_name ∧
    (t.register_initial_inventory snapshot).uses_by_class = t.uses_by_class ∧
    (t.register_initial_inventory snapshot).current_snapshot = t.current_snapshot ∧
    (t.register_initial_inventory snapshot).pending_action_label =
      t.pending_action_label ∧
    (t.register_initial_inventory snapshot).inv_strs_index = t.inv_strs_index ∧
    (t.register_initial_inventory snapshot).inv_oclasses_index =
      t.inv_oclasses_index :=
  register_initial_fold_frame snapshot snapshot.counts t

theorem register_initial_fold_get (snapshot : InventorySnapshot)
    (L : List (String × Int)) :
    ∀ (t : InventoryStatsTracker) (n : String),
      Counter.get (L.foldl (register_initial_step snapshot) t).pickups_by_name n =
        Counter.get t.pickups_by_name n + initContrib L n := by
  induction L with
  | nil => intro t n; simp [initContrib]
  | cons kc rest ih =>
    intro t n
    obtain ⟨k, c⟩ := kc
    simp only [List.foldl_cons]
    rw [ih]
    rw [show register_initial_step snapshot t (k, c) =
      t.record_acquisition k c (lookupStr snapshot.name_to_category k) from rfl]
    rw [record_acquisition_pickups_get]
    simp only [initContrib]
    ring

theorem register_initial_get (t : InventoryStatsTracker)
    (snapshot : InventorySnapshot) (n : String) (hS : SnapOk snapshot) :
    Counter.get (t.register_initial_inventory snapshot).pickups_by_name n =
      Counter.get t.pickups_by_name n + Counter.get snapshot.counts n := by
  rw [show t.register_initial_inventory snapshot =
    snapshot.counts.foldl (register_initial_step snapshot) t from rfl]
  rw [register_initial_fold_get snapshot snapshot.counts t n]
  rw [initContrib_eq snapshot.counts n hS.1 hS.2]

theorem register_initial_good (t : InventoryStatsTracker)
    (snapshot : InventorySnapshot) (h : GoodState t) :
    GoodState (t.register_initial_inventory snapshot) := by
  rw [show t.register_initial_inventory snapshot =
    snapshot.counts.foldl (register_initial_step snapshot) t from rfl]
  induction snapshot.counts generalizing t with
  | nil => simpa using h
  | cons kc rest ih =>
    simp only [List.foldl_cons]
    exact ih _ (record_acquisition_good _ _ _ _ h)

end InventoryStatsTracker

namespace InventoryStatsTracker

theorem register_usage_step_frame (before after : InventorySnapshot) (lbl : String)
    (p : InventoryStatsTracker × Bool) (entry : String × Int) :
    (register_usage_step before after lbl p entry).1.pickups_by_name =
      p.1.pickups_by_name ∧
    (register_usage_step before after lbl p entry).1.pickups_by_class =
      p.1.pickups_by_class ∧
    (register_usage_step before after lbl p entry).1.current_snapshot =
      p.1.current_snapshot ∧
    (register_usage_step before after lbl p entry).1.pending_action_label =
      p.1.pending_action_label ∧
    (register_usage_step before after lbl p entry).1.inv_strs_index =
      p.1.inv_strs_index ∧
    (register_usage_step before after lbl p entry).1.inv_oclasses_index =
      p.1.inv_oclasses_index := by
  by_cases hd : 0 < entry.2 - Counter.get after.counts entry.1 <;>
    cases hcat : lookupStr before.name_to_category entry.1 <;>
      simp [register_usage_step, hd, hcat]

theorem register_usage_step_uname (before after : InventorySnapshot) (lbl : String)
    (p : InventoryStatsTracker × Bool) (entry : String × Int) (n l : String) :
    NestedCounter.get (register_usage_step before after lbl p entry).1.uses_by_name n l =
      NestedCounter.get p.1.uses_by_name n l +
        (if n = entry.1 ∧ l = lbl then
          posOr0 (entry.2 - Counter.get after.counts entry.1) else 0) := by
  by_cases hd : 0 < entry.2 - Counter.get after.counts entry.1
  · have hpos : posOr0 (entry.2 - Counter.get after.counts entry.1) =
        entry.2 - Counter.get after.counts entry.1 := by
      unfold posOr0
      rw [if_pos hd]
    have huse : (register_usage_step before after lbl p entry).1.uses_by_name =
        NestedCounter.add p.1.uses_by_name entry.1 lbl
          (entry.2 - Counter.get after.counts entry.1) := by
      cases hcat : lookupStr before.name_to_category entry.1 <;>
        simp [register_usage_step, hd, hcat]
    rw [huse, NestedCounter.get_of_add, hpos]
  · have h0 : posOr0 (entry.2 - Counter.get after.counts entry.1) = 0 := by
      unfold posOr0
      rw [if_neg hd]
    rw [show (register_usage_step before after lbl p entry) = p by
      simp [register_usage_step, hd]]
    rw [h0]
    simp

theorem register_usage_step_uaction (before after : InventorySnapshot) (lbl : String)
    (p : InventoryStatsTracker × Bool) (entry : String × Int) (lb : String) :
    Counter.get (register_usage_step before after lbl p entry).1.uses_by_action lb =
      Counter.get p.1.uses_by_action lb +
        (if lb = lbl then
          posOr0 (entry.2 - Counter.get after.counts entry.1) else 0) := by
  by_cases hd : 0 < entry.2 - Counter.get after.counts entry.1
  · have hpos : posOr0 (entry.2 - Counter.get after.counts entry.1) =
        entry.2 - Counter.get after.counts entry.1 := by
      unfold posOr0
      rw [if_pos hd]
    have huse : (register_usage_step before after lbl p entry).1.uses_by_action =
        Counter.add p.1.uses_by_action lbl
          (entry.2 - Counter.get after.counts entry.1) := by
      cases hcat : lookupStr before.name_to_category entry.1 <;>
        simp [register_usage_step, hd, hcat]
    rw [huse, Counter.get_add, hpos]
  · have h0 : posOr0 (entry.2 - Counter.get after.counts entry.1) = 0 := by
      unfold posOr0
      rw [if_neg hd]
    rw [show (register_usage_step before after lbl p entry) = p by
      simp [register_usage_step, hd]]
    rw [h0]
    simp

theorem register_usage_step_flag (before after : InventorySnapshot) (lbl : String)
    (p : InventoryStatsTracker × Bool) (entry : String × Int) :
    (register_usage_step before after lbl p entry).2 =
      (p.2 || decide (0 < entry.2 - Counter.get after.counts entry.1)) := by
  by_cases hd : 0 < entry.2 - Counter.get after.counts entry.1 <;>
    cases hcat : lookupStr before.name_to_category entry.1 <;>
      simp [register_usage_step, hd, hcat]

theorem register_usage_step_keys (before after : InventorySnapshot) (lbl : String)
    (p : InventoryStatsTracker × Bool) (entry : String × Int) (n : String)
    (h : n ∈ NestedCounter.keys (register_usage_step before after lbl p entry).1.uses_by_name) :
    n ∈ NestedCounter.keys p.1.uses_by_name ∨
      (n = entry.1 ∧ 0 < entry.2 - Counter.get after.counts entry.1) := by
  by_cases hd : 0 < entry.2 - Counter.get after.counts entry.1
  · have huse : (register_usage_step before after lbl p entry).1.uses_by_name =
        NestedCounter.add p.1.uses_by_name entry.1 lbl
          (entry.2 - Counter.get after.counts entry.1) := by
      cases hcat : lookupStr before.name_to_category entry.1 <;>
        simp [register_usage_step, hd, hcat]
    rw [huse] at h
    rcases NestedCounter.keys_add_mem _ _ _ _ n h with h2 | h2
    · exact Or.inl h2
    · exact Or.inr ⟨h2, hd⟩
  · rw [show (register_usage_step before after lbl p entry) = p by
      simp [register_usage_step, hd]] at h
    exact Or.inl h

theorem register_usage_step_good (before after : InventorySnapshot) (lbl : String)
    (p : InventoryStatsTracker × Bool) (entry : String × Int)
    (h : GoodState p.1) : GoodState (register_usage_step before after lbl p entry).1 := by
  obtain ⟨hp1, hp2, hu1, hu2, hu3, hs1, hs2⟩ := h
  by_cases hd : 0 < entry.2 - Counter.get after.counts entry.1
  · cases hcat : lookupStr before.name_to_category entry.1 with
    | none =>
      simp only [register_usage_step, if_pos hd, hcat]
      exact ⟨hp1, hp2, Counter.posCounter_add _ _ _ hu1 hd,
        NestedCounter.posNested_add _ _ _ _ hu2 hd, hu3,
        StatsMap.actionsPos_addAction _ _ _ _ hs1 hd, hs2⟩
    | some cat =>
      simp only [register_usage_step, if_pos hd, hcat]
      exact ⟨hp1, hp2, Counter.posCounter_add _ _ _ hu1 hd,
        NestedCounter.posNested_add _ _ _ _ hu2 hd,
        NestedCounter.posNested_add _ _ _ _ hu3 hd,
        StatsMap.actionsPos_addAction _ _ _ _ hs1 hd,
        StatsMap.actionsPos_addAction _ _ _ _ hs2 hd⟩
  · rw [show (register_usage_step before after lbl p entry) = p by
      simp [register_usage_step, hd]]
    exact ⟨hp1, hp2, hu1, hu2, hu3, hs1, hs2⟩

theorem register_usage_fold_frame (before after : InventorySnapshot) (lbl : String)
    (L : List (String × Int)) :
    ∀ (p : InventoryStatsTracker × Bool),
    ((L.foldl (register_usage_step before after lbl) p).1.pickups_by_name =
      p.1.pickups_by_name) ∧
    ((L.foldl (register_usage_step before after lbl) p).1.pickups_by_class =
      p.1.pickups_by_class) ∧
    ((L.foldl (register_usage_step before after lbl) p).1.current_snapshot =
      p.1.current_snapshot) ∧
    ((L.foldl (register_usage_step before after lbl) p).1.pending_action_label =
      p.1.pending_action_label) ∧
    ((L.foldl (register_usage_step before after lbl) p).1.inv_strs_index =
      p.1.inv_strs_index) ∧
    ((L.foldl (register_usage_step before after lbl) p).1.inv_oclasses_index =
      p.1.inv_oclasses_index) := by
  induction L with
  | nil => intro p; exact ⟨rfl, rfl, rfl, rfl, rfl, rfl⟩
  | cons kc rest ih =>
    intro p
    obtain ⟨e1, e2, e3, e4, e5, e6⟩ := ih (register_usage_step before after lbl p kc)
    obtain ⟨f1, f2, f3, f4, f5, f6⟩ := register_usage_step_frame before after lbl p kc
    simp only [List.foldl_cons]
    exact ⟨e1.trans f1, e2.trans f2, e3.trans f3, e4.trans f4, e5.trans f5,
      e6.trans f6⟩

theorem register_usage_fold_uname (before after : InventorySnapshot) (lbl : String)
    (L : List (String × Int)) :
    ∀ (p : InventoryStatsTracker × Bool) (n l : String),
      NestedCounter.get
          (L.foldl (register_usage_step before after lbl) p).1.uses_by_name n l =
        NestedCounter.get p.1.uses_by_name n l +
          (if l = lbl then diffContrib after L n else 0) := by
  induction L with
  | nil => intro p n l; simp [diffContrib]
  | cons kc rest ih =>
    intro p n l
    obtain ⟨k, c⟩ := kc
    simp only [List.foldl_cons]
    rw [ih]
    rw [register_usage_step_uname]
    simp only [diffContrib]
    by_cases hl : l = lbl <;> by_cases hn : n = k <;>
      simp [hl, hn] <;> ring

theorem register_usage_fold_uaction (before after : InventorySnapshot) (lbl : String)
    (L : List (String × Int)) :
    ∀ (p : InventoryStatsTracker × Bool) (lb : String),
      Counter.get
          (L.foldl (register_usage_step before after lbl) p).1.uses_by_action lb =
        Counter.get p.1.uses_by_action lb +
          (if lb = lbl then diffTotal after L else 0) := by
  induction L with
  | nil => intro p lb; simp [diffTotal]
  | cons kc rest ih =>
    intro p lb
    obtain ⟨k, c⟩ := kc
    simp only [List.foldl_cons]
    rw [ih]
    rw [register_usage_step_uaction]
    simp only [diffTotal]
    by_cases hl : lb = lbl <;> simp [hl] <;> ring

theorem register_usage_fold_flag (before after : InventorySnapshot) (lbl : String)
    (L : List (String × Int)) :
    ∀ (p : InventoryStatsTracker × Bool),
      (L.foldl (register_usage_step before after lbl) p).2 =
        (p.2 || L.any (fun kv => decide (0 < kv.2 - Counter.get after.counts kv.1))) := by
  induction L with
  | nil => intro p; simp
  | cons kc rest ih =>
    intro p
    simp only [List.foldl_cons]
    rw [ih]
    rw [register_usage_step_flag]
    simp [Bool.or_assoc]

theorem register_usage_fold_keys (before after : InventorySnapshot) (lbl : String)
    (L : List (String × Int)) :
    ∀ (p : InventoryStatsTracker × Bool) (n : String),
      n ∈ NestedCounter.keys
          (L.foldl (register_usage_step before after lbl) p).1.uses_by_name →
        n ∈ NestedCounter.keys p.1.uses_by_name ∨
          ∃ kv ∈ L, n = kv.1 ∧ 0 < kv.2 - Counter.get after.counts kv.1 := by
  induction L with
  | nil => intro p n h; exact Or.inl h
  | cons kc rest ih =>
    intro p n h
    simp only [List.foldl_cons] at h
    rcases ih (register_usage_step before after lbl p kc) n h with h2 | h2
    · rcases register_usage_step_keys before after lbl p kc n h2 with h3 | h3
      · exact Or.inl h3
      · exact Or.inr ⟨kc, List.mem_cons_self _ _, h3⟩
    · obtain ⟨kv, hkv, h3⟩ := h2
      exact Or.inr ⟨kv, List.mem_cons_of_mem _ hkv, h3⟩

theorem register_usage_fold_good (before after : InventorySnapshot) (lbl : String)
    (L : List (String × Int)) :
    ∀ (p : InventoryStatsTracker × Bool), GoodState p.1 →
      GoodState (L.foldl (register_usage_step before after lbl) p).1 := by
  induction L with
  | nil => intro p h; exact h
  | cons kc rest ih =>
    intro p h
    simp only [List.foldl_cons]
    exact ih _ (register_usage_step_good before after lbl p kc h)

theorem register_usage_fold_nochange (before after : InventorySnapshot) (lbl : String)
    (L : List (String × Int))
    (hno : ∀ kv ∈ L, kv.2 - Counter.get after.counts kv.1 ≤ 0) :
    ∀ (p : InventoryStatsTracker × Bool),
      L.foldl (register_usage_step before after lbl) p = p := by
  induction L with
  | nil => intro p; rfl
  | cons kc rest ih =>
    intro p
    have hk : kc.2 - Counter.get after.counts kc.1 ≤ 0 :=
      hno kc (List.mem_cons_self _ _)
    have hd : ¬0 < kc.2 - Counter.get after.counts kc.1 := by omega
    simp only [List.foldl_cons]
    rw [show register_usage_step before after lbl p kc = p by
      simp [register_usage_step, hd]]
    exact ih (fun kv hkv => hno kv (List.mem_cons_of_mem _ hkv)) p

theorem record_step_none_obs (t : InventoryStatsTracker) (a : NhAction)
    (s : InventorySnapshot) (h : t.enabled = true)
    (hc : t.current_snapshot = some s) : t.record_step a none = t := by
  simp [record_step, h, hc, extract_snapshot]

theorem record_step_seed (t : InventoryStatsTracker) (a : NhAction)
    (obs : Option Observation) (h : t.enabled = true)
    (hc : t.current_snapshot = none) :
    t.record_step a obs = { t with current_snapshot := extract_snapshot obs } := by
  simp [record_step, h, hc]

theorem record_step_some_eq (t : InventoryStatsTracker) (a : NhAction)
    (o : Observation) (prev : InventorySnapshot) (h : t.enabled = true)
    (hc : t.current_snapshot = some prev) :
    t.record_step a (some o) =
      { clear_pending_if_used
          ((apply_pending (t.register_pickups prev (extractObs o)) a).register_usage
            ((apply_pending (t.register_pickups prev (extractObs o))
                a).pending_action_label.getD (action_to_label a))
            prev (extractObs o))
        with current_snapshot := some (extractObs o) } := by
  cases htr : trackedCommandGet a <;>
    simp [record_step, h, hc, extract_snapshot, apply_pending,
      clear_pending_if_used, htr]

theorem apply_pending_frame (t : InventoryStatsTracker) (a : NhAction) :
    (apply_pending t a).pickups_by_name = t.pickups_by_name ∧
    (apply_pending t a).pickups_by_class = t.pickups_by_class ∧
    (apply_pending t a).uses_by_action = t.uses_by_action ∧
    (apply_pending t a).uses_by_name = t.uses_by_name ∧
    (apply_pending t a).uses_by_class = t.uses_by_class ∧
    (apply_pending t a).items_by_name = t.items_by_name ∧
    (apply_pending t a).categories_by_name = t.categories_by_name ∧
    (apply_pending t a).current_snapshot = t.current_snapshot ∧
    (apply_pending t a).inv_strs_index = t.inv_strs_index ∧
    (apply_pending t a).inv_oclasses_index = t.inv_oclasses_index := by
  cases htr : trackedCommandGet a <;> simp [apply_pending, htr]

theorem clear_pending_frame (p : InventoryStatsTracker × Bool) :
    (clear_pending_if_used p).pickups_by_name = p.1.pickups_by_name ∧
    (clear_pending_if_used p).pickups_by_class = p.1.pickups_by_class ∧
    (clear_pending_if_used p).uses_by_action = p.1.uses_by_action ∧
    (clear_pending_if_used p).uses_by_name = p.1.uses_by_name ∧
    (clear_pending_if_used p).uses_by_class = p.1.uses_by_class ∧
    (clear_pending_if_used p).items_by_name = p.1.items_by_name ∧
    (clear_pending_if_used p).categories_by_name = p.1.categories_by_name ∧
    (clear_pending_if_used p).current_snapshot = p.1.current_snapshot ∧
    (clear_pending_if_used p).inv_strs_index = p.1.inv_strs_index ∧
    (clear_pending_if_used p).inv_oclasses_index = p.1.inv_oclasses_index := by
  by_cases hcond : p.2 && p.1.pending_action_label.isSome <;>
    simp [clear_pending_if_used, hcond]

theorem register_usage_frame (t : InventoryStatsTracker) (lbl : String)
    (before after : InventorySnapshot) :
    (t.register_usage lbl before after).1.pickups_by_name = t.pickups_by_name ∧
    (t.register_usage lbl before after).1.pickups_by_class = t.pickups_by_class ∧
    (t.register_usage lbl before after).1.current_snapshot = t.current_snapshot ∧
    (t.register_usage lbl before after).1.pending_action_label =
      t.pending_action_label ∧
    (t.register_usage lbl before after).1.inv_strs_index = t.inv_strs_index ∧
    (t.register_usage lbl before after).1.inv_oclasses_index =
      t.inv_oclasses_index :=
  register_usage_fold_frame before after lbl before.counts (t, false)

theorem register_usage_uname (t : InventoryStatsTracker) (lbl : String)
    (before after : InventorySnapshot) (n l : String) (hB : SnapOk before)
    (hA : PosCounter after.counts) :
    NestedCounter.get (t.register_usage lbl before after).1.uses_by_name n l =
      NestedCounter.get t.uses_by_name n l +
        (if l = lbl then
          posOr0 (Counter.get before.counts n - Counter.get after.counts n)
        else 0) := by
  rw [show t.register_usage lbl before after =
    before.counts.foldl (register_usage_step before after lbl) (t, false) from rfl]
  rw [register_usage_fold_uname before after lbl before.counts (t, false) n l]
  rw [diffContrib_eq after before.counts n hB.1 hB.2
    (Counter.get_nonneg after.counts n hA)]

theorem register_usage_uaction (t : InventoryStatsTracker) (lbl : String)
    (before after : InventorySnapshot) (lb : String) :
    Counter.get (t.register_usage lbl before after).1.uses_by_action lb =
      Counter.get t.uses_by_action lb +
        (if lb = lbl then diffTotal after before.counts else 0) := by
  rw [show t.register_usage lbl before after =
    before.counts.foldl (register_usage_step before after lbl) (t, false) from rfl]
  rw [register_usage_fold_uaction before after lbl before.counts (t, false) lb]

theorem register_usage_flag (t : InventoryStatsTracker) (lbl : String)
    (before after : InventorySnapshot) :
    (t.register_usage lbl before after).2 =
      before.counts.any
        (fun kv => decide (0 < kv.2 - Counter.get after.counts kv.1)) := by
  rw [show t.register_usage lbl before after =
    before.counts.foldl (register_usage_step before after lbl) (t, false) from rfl]
  rw [register_usage_fold_flag before after lbl before.counts (t, false)]
  simp

theorem register_usage_keys (t : InventoryStatsTracker) (lbl : String)
    (before after : InventorySnapshot) (n : String) (hB : SnapOk before)
    (hA : PosCounter after.counts)
    (h : n ∈ NestedCounter.keys (t.register_usage lbl before after).1.uses_by_name) :
    n ∈ NestedCounter.keys t.uses_by_name ∨ 0 < Counter.get before.counts n := by
  rw [show t.register_usage lbl before after =
    before.counts.foldl (register_usage_step before after lbl) (t, false) from rfl] at h
  rcases register_usage_fold_keys before after lbl before.counts (t, false) n h with
    h2 | h2
  · exact Or.inl h2
  · obtain ⟨kv, hkv, hn, hd⟩ := h2
    right
    have hget : Counter.get before.counts kv.1 = kv.2 := by
      obtain ⟨k, v⟩ := kv
      exact Counter.get_of_mem before.counts k v hB.1 hkv
    have hge : 0 ≤ Counter.get after.counts kv.1 :=
      Counter.get_nonneg after.counts kv.1 hA
    rw [hn, hget]
    omega

theorem register_usage_good (t : InventoryStatsTracker) (lbl : String)
    (before after : InventorySnapshot) (h : GoodState t) :
    GoodState (t.register_usage lbl before after).1 :=
  register_usage_fold_good before after lbl before.counts (t, false) h

theorem register_usage_nochange (t : InventoryStatsTracker) (lbl : String)
    (before after : InventorySnapshot)
    (hno : ∀ kv ∈ before.counts, kv.2 - Counter.get after.counts kv.1 ≤ 0) :
    t.register_usage lbl before after = (t, false) :=
  register_usage_fold_nochange before after lbl before.counts hno (t, false)

theorem apply_pending_good (t : InventoryStatsTracker) (a : NhAction)
    (h : GoodState t) : GoodState (apply_pending t a) := by
  obtain ⟨hp1, hp2, hu1, hu2, hu3, hs1, hs2⟩ := h
  cases htr : trackedCommandGet a <;> simp only [apply_pending, htr] <;>
    exact ⟨hp1, hp2, hu1, hu2, hu3, hs1, hs2⟩

theorem clear_pending_good (p : InventoryStatsTracker × Bool)
    (h : GoodState p.1) : GoodState (clear_pending_if_used p) := by
  obtain ⟨hp1, hp2, hu1, hu2, hu3, hs1, hs2⟩ := h
  unfold clear_pending_if_used
  split
  · exact ⟨hp1, hp2, hu1, hu2, hu3, hs1, hs2⟩
  · exact ⟨hp1, hp2, hu1, hu2, hu3, hs1, hs2⟩

theorem record_step_proj (t : InventoryStatsTracker) (a : NhAction) (o : Observation)
    (prev : InventorySnapshot) (h : t.enabled = true)
    (hc : t.current_snapshot = some prev) :
    (t.record_step a (some o)).current_snapshot = some (extractObs o) ∧
    (t.record_step a (some o)).inv_strs_index = t.inv_strs_index ∧
    (t.record_step a (some o)).inv_oclasses_index = t.inv_oclasses_index ∧
    (t.record_step a (some o)).pickups_by_name =
      (t.register_pickups prev (extractObs o)).pickups_by_name ∧
    (t.record_step a (some o)).uses_by_name =
      ((apply_pending (t.register_pickups prev (extractObs o)) a).register_usage
        ((apply_pending (t.register_pickups prev (extractObs o))
            a).pending_action_label.getD (action_to_label a))
        prev (extractObs o)).1.uses_by_name := by
  rw [record_step_some_eq t a o prev h hc]
  obtain ⟨cp1, cp2, cp3, cp4, cp5, cp6, cp7, cp8, cp9, cp10⟩ :=
    clear_pending_frame
      ((apply_pending (t.register_pickups prev (extractObs o)) a).register_usage
        ((apply_pending (t.register_pickups prev (extractObs o))
            a).pending_action_label.getD (action_to_label a))
        prev (extractObs o))
  obtain ⟨ru1, ru2, ru3, ru4, ru5, ru6⟩ :=
    register_usage_frame (apply_pending (t.register_pickups prev (extractObs o)) a)
      ((apply_pending (t.register_pickups prev (extractObs o))
          a).pending_action_label.getD (action_to_label a))
      prev (extractObs o)
  obtain ⟨ap1, ap2, ap3, ap4, ap5, ap6, ap7, ap8, ap9, ap10⟩ :=
    apply_pending_frame (t.register_pickups prev (extractObs o)) a
  obtain ⟨rp1, rp2, rp3, rp4, rp5, rp6, rp7⟩ :=
    register_pickups_frame t prev (extractObs o)
  refine ⟨rfl, ?_, ?_, ?_, ?_⟩
  · exact cp9.trans (ru5.trans (ap9.trans rp6))
  · exact cp10.trans (ru6.trans (ap10.trans rp7))
  · exact cp1.trans (ru1.trans ap1)
  · exact cp4

theorem enabled_of_indices (t t' : InventoryStatsTracker)
    (h1 : t'.inv_strs_index = t.inv_strs_index)
    (h2 : t'.inv_oclasses_index = t.inv_oclasses_index)
    (h : t.enabled = true) : t'.enabled = true := by
  unfold enabled at h ⊢
  rw [h1, h2]
  exact h

theorem record_step_pickups_get (t : InventoryStatsTracker) (a : NhAction)
    (o : Observation) (prev : InventorySnapshot) (h : t.enabled = true)
    (hc : t.current_snapshot = some prev) (hprev : PosCounter prev.counts)
    (n : String) :
    Counter.get (t.record_step a (some o)).pickups_by_name n =
      Counter.get t.pickups_by_name n +
        posOr0 (Counter.get (extractObs o).counts n - Counter.get prev.counts n) := by
  obtain ⟨-, -, -, hp, -⟩ := record_step_proj t a o prev h hc
  rw [hp]
  exact register_pickups_get t prev (extractObs o) n (snapOk_extractObs o)
    (Counter.get_nonneg prev.counts n hprev)

theorem record_step_indices (t : InventoryStatsTracker) (a : NhAction)
    (obs : Option Observation) :
    (t.record_step a obs).inv_strs_index = t.inv_strs_index ∧
    (t.record_step a obs).inv_oclasses_index = t.inv_oclasses_index := by
  by_cases he : t.enabled = true
  · cases hcur : t.current_snapshot with
    | none =>
      rw [record_step_seed t a obs he hcur]
      exact ⟨rfl, rfl⟩
    | some prev =>
      cases obs with
      | none =>
        rw [record_step_none_obs t a prev he hcur]
        exact ⟨rfl, rfl⟩
      | some o =>
        obtain ⟨-, h1, h2, -, -⟩ := record_step_proj t a o prev he hcur
        exact ⟨h1, h2⟩
  · have hf : t.enabled = false := by
      revert he
      cases t.enabled <;> simp
    rw [show t.record_step a obs = t by simp [record_step, hf]]
    exact ⟨rfl, rfl⟩

theorem record_step_good (t : InventoryStatsTracker) (a : NhAction)
    (obs : Option Observation) (h : GoodState t) :
    GoodState (t.record_step a obs) := by
  obtain ⟨hp1, hp2, hu1, hu2, hu3, hs1, hs2⟩ := h
  by_cases he : t.enabled = true
  · cases hcur : t.current_snapshot with
    | none =>
      rw [record_step_seed t a obs he hcur]
      exact ⟨hp1, hp2, hu1, hu2, hu3, hs1, hs2⟩
    | some prev =>
      cases obs with
      | none =>
        rw [record_step_none_obs t a prev he hcur]
        exact ⟨hp1, hp2, hu1, hu2, hu3, hs1, hs2⟩
      | some o =>
        rw [record_step_some_eq t a o prev he hcur]
        have hg : GoodState
            (clear_pending_if_used
              ((apply_pending (t.register_pickups prev (extractObs o)) a).register_usage
                ((apply_pending (t.register_pickups prev (extractObs o))
                    a).pending_action_label.getD (action_to_label a))
                prev (extractObs o))) :=
          clear_pending_good _
            (register_usage_good _ _ _ _
              (apply_pending_good _ _
                (register_pickups_good t prev (extractObs o)
                  ⟨hp1, hp2, hu1, hu2, hu3, hs1, hs2⟩)))
        exact hg
  · have hf : t.enabled = false := by
      revert he
      cases t.enabled <;> simp
    rw [show t.record_step a obs = t by simp [record_step, hf]]
    exact ⟨hp1, hp2, hu1, hu2, hu3, hs1, hs2⟩

theorem record_step_keys_origin (t : InventoryStatsTracker) (a : NhAction)
    (o : Observation) (prev : InventorySnapshot) (h : t.enabled = true)
    (hc : t.current_snapshot = some prev) (hprev : SnapOk prev) (n : String)
    (hmem : n ∈ NestedCounter.keys (t.record_step a (some o)).uses_by_name) :
    n ∈ NestedCounter.keys t.uses_by_name ∨ 0 < Counter.get prev.counts n := by
  obtain ⟨-, -, -, -, hu⟩ := record_step_proj t a o prev h hc
  rw [hu] at hmem
  obtain ⟨ap1, ap2, ap3, ap4, ap5, ap6, ap7, ap8, ap9, ap10⟩ :=
    apply_pending_frame (t.register_pickups prev (extractObs o)) a
  obtain ⟨rp1, rp2, rp3, rp4, rp5, rp6, rp7⟩ :=
    register_pickups_frame t prev (extractObs o)
  rcases register_usage_keys _ _ prev (extractObs o) n hprev
      (snapOk_extractObs o).2 hmem with h2 | h2
  · rw [ap4, rp2] at h2
    exact Or.inl h2
  · exact Or.inr h2

theorem start_episode_some_eq (t : InventoryStatsTracker) (o : Observation)
    (h : t.enabled = true) :
    t.start_episode (some o) =
      ({ t.reset_stats with
          current_snapshot := some (extractObs o) }).register_initial_inventory
        (extractObs o) := by
  simp [start_episode, h, extract_snapshot]

theorem start_episode_good (t : InventoryStatsTracker) (obs : Option Observation)
    (h : t.enabled = true) : GoodState (t.start_episode obs) := by
  have hreset : ∀ (c : Option InventorySnapshot),
      GoodState { t.reset_stats with current_snapshot := c } := by
    intro c
    refine ⟨?_, ?_, ?_, ?_, ?_, ?_, ?_⟩ <;> intro x hx <;> simp [reset_stats] at hx
  cases obs with
  | none =>
    rw [show t.start_episode none = { t.reset_stats with current_snapshot := none } by
      simp [start_episode, h, extract_snapshot]]
    exact hreset none
  | some o =>
    rw [start_episode_some_eq t o h]
    exact register_initial_good _ _ (hreset (some (extractObs o)))

theorem start_episode_some_facts (t : InventoryStatsTracker) (o : Observation)
    (h : t.enabled = true) :
    (t.start_episode (some o)).current_snapshot = some (extractObs o) ∧
    (t.start_episode (some o)).enabled = true ∧
    (∀ n, Counter.get (t.start_episode (some o)).pickups_by_name n =
      Counter.get (extractObs o).counts n) ∧
    (t.start_episode (some o)).uses_by_name = [] := by
  rw [start_episode_some_eq t o h]
  obtain ⟨ri1, ri2, ri3, ri4, ri5, ri6, ri7⟩ :=
    register_initial_frame
      ({ t.reset_stats with current_snapshot := some (extractObs o) }) (extractObs o)
  refine ⟨ri4, ?_, ?_, ri2⟩
  · exact enabled_of_indices t _ ri6 ri7 h
  · intro n
    rw [register_initial_get _ (extractObs o) n (snapOk_extractObs o)]
    simp [reset_stats, Counter.get]

theorem runSteps_pickups (steps : List (NhAction × Option Observation)) :
    ∀ (t : InventoryStatsTracker) (prev : InventorySnapshot),
      t.enabled = true → t.current_snapshot = some prev → SnapOk prev →
      ∀ n, Counter.get (runSteps t steps).pickups_by_name n =
        Counter.get t.pickups_by_name n + posDeltaSum prev (extractedSnaps steps) n := by
  induction steps with
  | nil =>
    intro t prev h hc hs n
    simp [runSteps, extractedSnaps, posDeltaSum]
  | cons s rest ih =>
    intro t prev h hc hs n
    obtain ⟨a, obs⟩ := s
    cases obs with
    | none =>
      rw [show runSteps t ((a, none) :: rest) =
        runSteps (t.record_step a none) rest from rfl]
      rw [record_step_none_obs t a prev h hc]
      rw [show extractedSnaps ((a, none) :: rest) = extractedSnaps rest by
        simp [extractedSnaps, extract_snapshot]]
      exact ih t prev h hc hs n
    | some o =>
      rw [show runSteps t ((a, some o) :: rest) =
        runSteps (t.record_step a (some o)) rest from rfl]
      obtain ⟨hcur, hsi, hoi, -, -⟩ := record_step_proj t a o prev h hc
      have hen : (t.record_step a (some o)).enabled = true :=
        enabled_of_indices t _ hsi hoi h
      rw [ih (t.record_step a (some o)) (extractObs o) hen hcur
        (snapOk_extractObs o) n]
      rw [record_step_pickups_get t a o prev h hc hs.2 n]
      rw [show extractedSnaps ((a, some o) :: rest) =
        extractObs o :: extractedSnaps rest by
          simp [extractedSnaps, extract_snapshot]]
      rw [show posDeltaSum prev (extractObs o :: extractedSnaps rest) n =
        posOr0 (Counter.get (extractObs o).counts n - Counter.get prev.counts n) +
          posDeltaSum (extractObs o) (extractedSnaps rest) n from rfl]
      ring

theorem runSteps_good (steps : List (NhAction × Option Observation)) :
    ∀ t, GoodState t → GoodState (runSteps t steps) := by
  induction steps with
  | nil => intro t h; exact h
  | cons s rest ih =>
    intro t h
    exact ih _ (record_step_good t s.1 s.2 h)

theorem runSteps_indices (steps : List (NhAction × Option Observation)) :
    ∀ t, (runSteps t steps).inv_strs_index = t.inv_strs_index ∧
      (runSteps t steps).inv_oclasses_index = t.inv_oclasses_index := by
  induction steps with
  | nil => intro t; exact ⟨rfl, rfl⟩
  | cons s rest ih =>
    intro t
    obtain ⟨e1, e2⟩ := ih (t.record_step s.1 s.2)
    obtain ⟨f1, f2⟩ := record_step_indices t s.1 s.2
    exact ⟨e1.trans f1, e2.trans f2⟩

theorem runSteps_keys (steps : List (NhAction × Option Observation)) :
    ∀ (t : InventoryStatsTracker) (prev : InventorySnapshot),
      t.enabled = true → t.current_snapshot = some prev → SnapOk prev →
      ∀ n, n ∈ NestedCounter.keys (runSteps t steps).uses_by_name →
        n ∈ NestedCounter.keys t.uses_by_name ∨
          ∃ s ∈ prevSnaps prev (extractedSnaps steps), 0 < Counter.get s.counts n := by
  induction steps with
  | nil =>
    intro t prev h hc hs n hmem
    exact Or.inl hmem
  | cons s rest ih =>
    intro t prev h hc hs n hmem
    obtain ⟨a, obs⟩ := s
    cases obs with
    | none =>
      rw [show runSteps t ((a, none) :: rest) =
        runSteps (t.record_step a none) rest from rfl] at hmem
      rw [record_step_none_obs t a prev h hc] at hmem
      rw [show extractedSnaps ((a, none) :: rest) = extractedSnaps rest by
        simp [extractedSnaps, extract_snapshot]]
      exact ih t prev h hc hs n hmem
    | some o =>
      rw [show runSteps t ((a, some o) :: rest) =
        runSteps (t.record_step a (some o)) rest from rfl] at hmem
      obtain ⟨hcur, hsi, hoi, -, -⟩ := record_step_proj t a o prev h hc
      have hen : (t.record_step a (some o)).enabled = true :=
        enabled_of_indices t _ hsi hoi h
      rw [show extractedSnaps ((a, some o) :: rest) =
        extractObs o :: extractedSnaps rest by
          simp [extractedSnaps, extract_snapshot]]
      rw [show prevSnaps prev (extractObs o :: extractedSnaps rest) =
        prev :: prevSnaps (extractObs o) (extractedSnaps rest) from rfl]
      rcases ih (t.record_step a (some o)) (extractObs o) hen hcur
          (snapOk_extractObs o) n hmem with h2 | h2
      · rcases record_step_keys_origin t a o prev h hc hs n h2 with h3 | h3
        · exact Or.inl h3
        · exact Or.inr ⟨prev, List.mem_cons_self _ _, h3⟩
      · obtain ⟨s, hsm, hsp⟩ := h2
        exact Or.inr ⟨s, List.mem_cons_of_mem _ hsm, hsp⟩

theorem record_step_tracked_no_decrease (t : InventoryStatsTracker) (a : NhAction)
    (o : Observation) (prev : InventorySnapshot) (L : String)
    (h : t.enabled = true) (hc : t.current_snapshot = some prev)
    (ha : trackedCommandGet a = some L)
    (hno : ∀ kv ∈ prev.counts, kv.2 - Counter.get (extractObs o).counts kv.1 ≤ 0) :
    t.record_step a (some o) =
      { t.register_pickups prev (extractObs o) with
        pending_action_label := some L,
        current_snapshot := some (extractObs o) } := by
  rw [record_step_some_eq t a o prev h hc]
  have h1 : apply_pending (t.register_pickups prev (extractObs o)) a =
      { t.register_pickups prev (extractObs o) with
        pending_action_label := some L } := by
    simp [apply_pending, ha]
  rw [h1]
  rw [register_usage_nochange _ _ _ _ hno]
  simp [clear_pending_if_used]

theorem record_step_pending_decrease (t : InventoryStatsTracker) (b : NhAction)
    (o : Observation) (prev : InventorySnapshot) (L : String)
    (h : t.enabled = true) (hc : t.current_snapshot = some prev)
    (hb : trackedCommandGet b = none)
    (hp : t.pending_action_label = some L)
    (hdec : ∃ kv ∈ prev.counts, 0 < kv.2 - Counter.get (extractObs o).counts kv.1)
    (hsnap : SnapOk prev) :
    (t.record_step b (some o)).pending_action_label = none ∧
    (∀ n, NestedCounter.get (t.record_step b (some o)).uses_by_name n L =
      NestedCounter.get t.uses_by_name n L +
        posOr0 (Counter.get prev.counts n - Counter.get (extractObs o).counts n)) ∧
    (Counter.get (t.record_step b (some o)).uses_by_action L =
      Counter.get t.uses_by_action L + diffTotal (extractObs o) prev.counts) ∧
    (∀ lb, lb ≠ L → Counter.get (t.record_step b (some o)).uses_by_action lb =
      Counter.get t.uses_by_action lb) := by
  rw [record_step_some_eq t b o prev h hc]
  have h1 : apply_pending (t.register_pickups prev (extractObs o)) b =
      t.register_pickups prev (extractObs o) := by
    simp [apply_pending, hb]
  rw [h1]
  obtain ⟨rp1, rp2, rp3, rp4, rp5, rp6, rp7⟩ :=
    register_pickups_frame t prev (extractObs o)
  have hpend : (t.register_pickups prev (extractObs o)).pending_action_label =
      some L := rp5.trans hp
  rw [hpend]
  rw [show (some L).getD (action_to_label b) = L from rfl]
  obtain ⟨ru1, ru2, ru3, ru4, ru5, ru6⟩ :=
    register_usage_frame (t.register_pickups prev (extractObs o)) L prev (extractObs o)
  have hflag : ((t.register_pickups prev (extractObs o)).register_usage L prev
      (extractObs o)).2 = true := by
    rw [register_usage_flag]
    rw [List.any_eq_true]
    obtain ⟨kv, hkv, hd⟩ := hdec
    exact ⟨kv, hkv, by simpa using hd⟩
  have hps : ((t.register_pickups prev (extractObs o)).register_usage L prev
      (extractObs o)).1.pending_action_label = some L := ru4.trans hpend
  have hcond : (((t.register_pickups prev (extractObs o)).register_usage L prev
      (extractObs o)).2 &&
      ((t.register_pickups prev (extractObs o)).register_usage L prev
        (extractObs o)).1.pending_action_label.isSome) = true := by
    rw [hflag, hps]
    rfl
  have hclear : clear_pending_if_used
      ((t.register_pickups prev (extractObs o)).register_usage L prev (extractObs o)) =
      { ((t.register_pickups prev (extractObs o)).register_usage L prev
          (extractObs o)).1 with pending_action_label := none } := by
    unfold clear_pending_if_used
    rw [if_pos hcond]
  rw [hclear]
  refine ⟨rfl, ?_, ?_, ?_⟩
  · intro n
    have huname := register_usage_uname (t.register_pickups prev (extractObs o)) L
      prev (extractObs o) n L hsnap (snapOk_extractObs o).2
    simp only [if_pos rfl] at huname
    show NestedCounter.get ((t.register_pickups prev (extractObs o)).register_usage L
        prev (extractObs o)).1.uses_by_name n L =
      NestedCounter.get t.uses_by_name n L +
        posOr0 (Counter.get prev.counts n - Counter.get (extractObs o).counts n)
    rw [huname, rp2]
    simp
  · have huact := register_usage_uaction (t.register_pickups prev (extractObs o)) L
      prev (extractObs o) L
    simp only [if_pos rfl] at huact
    show Counter.get ((t.register_pickups prev (extractObs o)).register_usage L
        prev (extractObs o)).1.uses_by_action L =
      Counter.get t.uses_by_action L + diffTotal (extractObs o) prev.counts
    rw [huact, rp1]
    simp
  · intro lb hlb
    have huact := register_usage_uaction (t.register_pickups prev (extractObs o)) L
      prev (extractObs o) lb
    rw [if_neg hlb] at huact
    show Counter.get ((t.register_pickups prev (extractObs o)).register_usage L
        prev (extractObs o)).1.uses_by_action lb = Counter.get t.uses_by_action lb
    rw [huact, rp1]
    ring

theorem finalize_fst (t : InventoryStatsTracker) (h : t.enabled = true) :
    (t.finalize_episode).1 = t.reset_stats := by
  simp [finalize_episode, h]

theorem finalize_of_reset (t : InventoryStatsTracker) (h : t.enabled = true) :
    ((t.reset_stats).finalize_episode).2 = [] := by
  have he : (t.reset_stats).enabled = true := enabled_of_indices t _ rfl rfl h
  simp [finalize_episode, he, reset_stats, counter_to_dict,
    nested_counter_to_dict, stats_to_dict, MetaVal.isEmptyVal]

theorem finalize_keys (t : InventoryStatsTracker) (h : t.enabled = true) :
    (t.finalize_episode).2 = [] ∨
    (t.finalize_episode).2.map Prod.fst =
      ["inv_pickups_by_name", "inv_pickups_by_class", "inv_uses_by_action",
       "inv_uses_by_name", "inv_uses_by_class", "inv_by_name", "inv_by_category"] := by
  simp only [finalize_episode, h, Bool.not_true, Bool.false_eq_true, if_false]
  split
  · right
    simp
  · left
    rfl

end InventoryStatsTracker

theorem counter_to_dict_noZero (c : Counter) :
    ∀ kv ∈ counter_to_dict c, kv.2 ≠ 0 := by
  induction c with
  | nil => intro kv hkv; simp [counter_to_dict] at hkv
  | cons kv0 rest ih =>
    obtain ⟨k, v⟩ := kv0
    intro kv hkv
    by_cases hv : v ≠ 0
    · simp only [counter_to_dict, if_pos hv] at hkv
      rcases List.mem_cons.mp hkv with h | h
      · rw [h]
        exact hv
      · exact ih kv h
    · simp only [counter_to_dict, if_neg hv] at hkv
      exact ih kv hkv

theorem nested_to_dict_mem (m : NestedCounter) :
    ∀ kc ∈ nested_counter_to_dict m, kc ∈ m := by
  induction m with
  | nil => intro kc hkc; simp [nested_counter_to_dict] at hkc
  | cons kc0 rest ih =>
    obtain ⟨k, c⟩ := kc0
    intro kc hkc
    by_cases hv : c.isEmpty
    · simp only [nested_counter_to_dict, if_pos hv] at hkc
      exact List.mem_cons_of_mem _ (ih kc hkc)
    · simp only [nested_counter_to_dict, if_neg hv] at hkc
      rcases List.mem_cons.mp hkc with h | h
      · rw [h]
        exact List.mem_cons_self _ _
      · exact List.mem_cons_of_mem _ (ih kc h)

theorem stats_to_dict_noZero (m : StatsMap) :
    ∀ ks ∈ stats_to_dict m, ∀ kv ∈ ks.2.2, kv.2 ≠ 0 := by
  induction m with
  | nil => intro ks hks; simp [stats_to_dict] at hks
  | cons ks0 rest ih =>
    obtain ⟨k, s⟩ := ks0
    intro ks hks
    by_cases hcond : s.acquired ≠ 0 ∨ counter_to_dict s.actions ≠ []
    · simp only [stats_to_dict, if_pos hcond] at hks
      rcases List.mem_cons.mp hks with h | h
      · rw [h]
        intro kv hkv
        exact counter_to_dict_noZero s.actions kv hkv
      · exact ih ks h
    · simp only [stats_to_dict, if_neg hcond] at hks
      exact ih ks hks

theorem finalize_noZero (t : InventoryStatsTracker) (h : t.enabled = true)
    (hg : GoodState t) :
    ∀ kv ∈ (t.finalize_episode).2, MetaVal.noZero kv.2 := by
  obtain ⟨hp1, hp2, hu1, hu2, hu3, hs1, hs2⟩ := hg
  intro kv hkv
  simp only [InventoryStatsTracker.finalize_episode, h, Bool.not_true,
    Bool.false_eq_true, if_false] at hkv
  have hnested : ∀ (m : NestedCounter), PosNested m →
      MetaVal.noZero (.nestedVal (nested_counter_to_dict m)) := by
    intro m hm kc hkc kv2 hkv2
    have hmem : kc ∈ m := nested_to_dict_mem m kc hkc
    have := hm kc hmem kv2 hkv2
    omega
  split at hkv
  · simp only [List.mem_cons, List.mem_singleton] at hkv
    rcases hkv with h1 | h1 | h1 | h1 | h1 | h1 | h1 | h1
    · rw [h1]
      intro x hx
      exact counter_to_dict_noZero _ x hx
    · rw [h1]
      intro x hx
      exact counter_to_dict_noZero _ x hx
    · rw [h1]
      intro x hx
      exact counter_to_dict_noZero _ x hx
    · rw [h1]
      exact hnested _ hu2
    · rw [h1]
      exact hnested _ hu3
    · rw [h1]
      exact stats_to_dict_noZero _
    · rw [h1]
      exact stats_to_dict_noZero _
    · simp at h1
  · simp at hkv

/-- Claim C1: for every episode run (`start_episode` on an observation, then
any sequence of `record_step` calls, on an enabled tracker), the total in
`pickups_by_name` for each canonical name equals that name's quantity in the
initial snapshot plus the sum of all positive per-name deltas between
consecutive successfully extracted snapshots. -/
theorem C1_pickups_by_name_totals (t0 : InventoryStatsTracker) (o : Observation)
    (steps : List (NhAction × Option Observation)) (n : String)
    (h : t0.enabled = true) :
    Counter.get (runSteps (t0.start_episode (some o)) steps).pickups_by_name n =
      Counter.get (extractObs o).counts n +
        posDeltaSum (extractObs o) (extractedSnaps steps) n := by
  obtain ⟨hcur, hen, hget, -⟩ :=
    InventoryStatsTracker.start_episode_some_facts t0 o h
  rw [InventoryStatsTracker.runSteps_pickups steps (t0.start_episode (some o)) (extractObs o) hen hcur
    (snapOk_extractObs o) n]
  rw [hget n]

/-- Witness for C1 at a concrete two-step episode. -/
theorem C1_witness :
    tEx0.enabled = true ∧
    Counter.get (runSteps (tEx0.start_episode (some oEx1)) stepsEx).pickups_by_name
        "food ration" =
      Counter.get (extractObs oEx1).counts "food ration" +
        posDeltaSum (extractObs oEx1) (extractedSnaps stepsEx) "food ration" :=
  ⟨rfl, C1_pickups_by_name_totals tEx0 oEx1 stepsEx "food ration" rfl⟩

/-- Claim C2: over every episode run on an enabled tracker, every quantity
stored in the usage counters (`uses_by_action`, `uses_by_name`,
`uses_by_class`, and the `ItemStats.actions` counters) is strictly positive,
and every name with a recorded usage had a positive count in the snapshot
that served as "previous" for some diffed step. -/
theorem C2_usage_positive_and_present (t0 : InventoryStatsTracker)
    (o : Observation) (steps : List (NhAction × Option Observation))
    (h : t0.enabled = true) :
    UsagePos (runSteps (t0.start_episode (some o)) steps) ∧
    ∀ n ∈ NestedCounter.keys
        (runSteps (t0.start_episode (some o)) steps).uses_by_name,
      ∃ s ∈ prevSnaps (extractObs o) (extractedSnaps steps),
        0 < Counter.get s.counts n := by
  obtain ⟨hcur, hen, -, huse⟩ :=
    InventoryStatsTracker.start_episode_some_facts t0 o h
  constructor
  · have hg := InventoryStatsTracker.runSteps_good steps _
      (InventoryStatsTracker.start_episode_good t0 (some o) h)
    exact hg.2.2
  · intro n hmem
    rcases InventoryStatsTracker.runSteps_keys steps _ (extractObs o) hen hcur (snapOk_extractObs o) n
        hmem with h2 | h2
    · rw [huse] at h2
      simp [NestedCounter.keys] at h2
    · exact h2

/-- Witness for C2 at a concrete two-step episode. -/
theorem C2_witness :
    tEx0.enabled = true ∧
    (UsagePos (runSteps (tEx0.start_episode (some oEx1)) stepsEx) ∧
    ∀ n ∈ NestedCounter.keys
        (runSteps (tEx0.start_episode (some oEx1)) stepsEx).uses_by_name,
      ∃ s ∈ prevSnaps (extractObs oEx1) (extractedSnaps stepsEx),
        0 < Counter.get s.counts n) :=
  ⟨rfl, C2_usage_positive_and_present tEx0 oEx1 stepsEx rfl⟩

/-- Claim C3: a tracked action at step k whose diff shows no decrease leaves
its label pending (overriding any previous pending label); a decrease on the
next, untracked step is attributed to that pending label per name and in
`uses_by_action`, no other label's total changes, and the pending label is
cleared once the usage is attributed. -/
theorem C3_pending_label_attribution (t : InventoryStatsTracker) (a b : NhAction)
    (o2 o3 : Observation) (s1 : InventorySnapshot) (L : String)
    (h : t.enabled = true) (hc : t.current_snapshot = some s1)
    (ha : trackedCommandGet a = some L)
    (hnodec : ∀ kv ∈ s1.counts, kv.2 - Counter.get (extractObs o2).counts kv.1 ≤ 0)
    (hb : trackedCommandGet b = none)
    (hdec : ∃ kv ∈ (extractObs o2).counts,
      0 < kv.2 - Counter.get (extractObs o3).counts kv.1) :
    (t.record_step a (some o2)).pending_action_label = some L ∧
    ((t.record_step a (some o2)).record_step b (some o3)).pending_action_label =
      none ∧
    (∀ n, NestedCounter.get
        ((t.record_step a (some o2)).record_step b (some o3)).uses_by_name n L =
      NestedCounter.get (t.record_step a (some o2)).uses_by_name n L +
        posOr0 (Counter.get (extractObs o2).counts n -
          Counter.get (extractObs o3).counts n)) ∧
    (Counter.get
        ((t.record_step a (some o2)).record_step b (some o3)).uses_by_action L =
      Counter.get (t.record_step a (some o2)).uses_by_action L +
        diffTotal (extractObs o3) (extractObs o2).counts) ∧
    (∀ lb, lb ≠ L →
      Counter.get
          ((t.record_step a (some o2)).record_step b (some o3)).uses_by_action lb =
        Counter.get (t.record_step a (some o2)).uses_by_action lb) := by
  have hstep1 :=
    InventoryStatsTracker.record_step_tracked_no_decrease t a o2 s1 L h hc ha hnodec
  have ht1pend : (t.record_step a (some o2)).pending_action_label = some L := by
    rw [hstep1]
  have ht1cur : (t.record_step a (some o2)).current_snapshot =
      some (extractObs o2) := by
    rw [hstep1]
  obtain ⟨hsi, hoi⟩ := InventoryStatsTracker.record_step_indices t a (some o2)
  have ht1en : (t.record_step a (some o2)).enabled = true :=
    InventoryStatsTracker.enabled_of_indices t _ hsi hoi h
  have hmain := InventoryStatsTracker.record_step_pending_decrease
    (t.record_step a (some o2)) b o3 (extractObs o2) L ht1en ht1cur hb ht1pend
    hdec (snapOk_extractObs o2)
  exact ⟨ht1pend, hmain.1, hmain.2.1, hmain.2.2.1, hmain.2.2.2⟩

/-- Witness for C3: `EAT` with an unchanged inventory, then an untracked
action with the food ration gone. -/
theorem C3_witness :
    tEx1.enabled = true ∧
    tEx1.current_snapshot = some (extractObs oEx1) ∧
    trackedCommandGet (NhAction.Command "EAT") = some "eat" ∧
    (∀ kv ∈ (extractObs oEx1).counts,
      kv.2 - Counter.get (extractObs oEx1).counts kv.1 ≤ 0) ∧
    trackedCommandGet NhAction.other = none ∧
    (∃ kv ∈ (extractObs oEx1).counts,
      0 < kv.2 - Counter.get (extractObs oEx2).counts kv.1) ∧
    ((tEx1.record_step (NhAction.Command "EAT") (some oEx1)).pending_action_label =
      some "eat" ∧
    ((tEx1.record_step (NhAction.Command "EAT") (some oEx1)).record_step
        NhAction.other (some oEx2)).pending_action_label = none ∧
    (∀ n, NestedCounter.get
        ((tEx1.record_step (NhAction.Command "EAT") (some oEx1)).record_step
          NhAction.other (some oEx2)).uses_by_name n "eat" =
      NestedCounter.get
          (tEx1.record_step (NhAction.Command "EAT") (some oEx1)).uses_by_name
          n "eat" +
        posOr0 (Counter.get (extractObs oEx1).counts n -
          Counter.get (extractObs oEx2).counts n)) ∧
    (Counter.get
        ((tEx1.record_step (NhAction.Command "EAT") (some oEx1)).record_step
          NhAction.other (some oEx2)).uses_by_action "eat" =
      Counter.get
          (tEx1.record_step (NhAction.Command "EAT") (some oEx1)).uses_by_action
          "eat" +
        diffTotal (extractObs oEx2) (extractObs oEx1).counts) ∧
    (∀ lb, lb ≠ "eat" →
      Counter.get
          ((tEx1.record_step (NhAction.Command "EAT") (some oEx1)).record_step
            NhAction.other (some oEx2)).uses_by_action lb =
        Counter.get
          (tEx1.record_step (NhAction.Command "EAT") (some oEx1)).uses_by_action
          lb)) :=
  ⟨rfl, rfl, rfl, by decide, rfl, by decide,
    C3_pending_label_attribution tEx1 (NhAction.Command "EAT") NhAction.other
      oEx1 oEx2 (extractObs oEx1) "eat" rfl rfl rfl (by decide) rfl (by decide)⟩

/-- Claim C4: the name normalization maps "a - the scroll of identify" to
"scroll of identify", "f) 3 daggers (weapon in hand)" to "daggers", and
"  an elven cloak  " to "elven cloak", following the pipeline of
`_normalize_name` (slot-prefix strip, "- " drop, trim, parenthesized
annotation removal, whitespace collapse, single article strip, leading
digit-token strip, lower-case and trim). -/
theorem C4_normalize_name_examples :
    normalize_name "a - the scroll of identify" = "scroll of identify" ∧
    normalize_name "f) 3 daggers (weapon in hand)" = "daggers" ∧
    normalize_name "  an elven cloak  " = "elven cloak" :=
  ⟨rfl, rfl, rfl⟩

/-- Counterexample for C5: after an episode with activity, the finalized
mapping's keys are the `inv_`-prefixed ones; no key `pickups_by_name` exists,
contradicting the claimed key names (and the mapping has seven keys, not
six). -/
theorem C5_counterexample :
    "inv_pickups_by_name" ∈
      ((tEx0.start_episode (some oEx1)).finalize_episode).2.map Prod.fst ∧
    "pickups_by_name" ∉
      ((tEx0.start_episode (some oEx1)).finalize_episode).2.map Prod.fst ∧
    ((tEx0.start_episode (some oEx1)).finalize_episode).2.map Prod.fst ≠
      ["pickups_by_name", "pickups_by_class", "uses_by_action", "uses_by_name",
       "uses_by_class"] := by
  decide

/-- Claim C5 (amended): when activity occurred (the result is non-empty),
`finalize_episode` on an enabled tracker returns a mapping with the seven
string keys `inv_pickups_by_name`, `inv_pickups_by_class`,
`inv_uses_by_action`, `inv_uses_by_name`, `inv_uses_by_class`, `inv_by_name`,
`inv_by_category`, whose values are integer-valued sub-mappings holding no
zero quantity (the stats values being `{acquired, actions}` records). -/
theorem C5_output_keys_amended (t0 : InventoryStatsTracker)
    (obs0 : Option Observation) (steps : List (NhAction × Option Observation))
    (h : t0.enabled = true)
    (hne : ((runSteps (t0.start_episode obs0) steps).finalize_episode).2 ≠ []) :
    ((runSteps (t0.start_episode obs0) steps).finalize_episode).2.map Prod.fst =
      ["inv_pickups_by_name", "inv_pickups_by_class", "inv_uses_by_action",
       "inv_uses_by_name", "inv_uses_by_class", "inv_by_name",
       "inv_by_category"] ∧
    ∀ kv ∈ ((runSteps (t0.start_episode obs0) steps).finalize_episode).2,
      MetaVal.noZero kv.2 := by
  have hsi : (t0.start_episode obs0).inv_strs_index = t0.inv_strs_index ∧
      (t0.start_episode obs0).inv_oclasses_index = t0.inv_oclasses_index := by
    cases obs0 with
    | none =>
      rw [show t0.start_episode none =
          { t0.reset_stats with current_snapshot := none } by
        simp [InventoryStatsTracker.start_episode, h, extract_snapshot]]
      exact ⟨rfl, rfl⟩
    | some o =>
      rw [InventoryStatsTracker.start_episode_some_eq t0 o h]
      obtain ⟨-, -, -, -, -, ri6, ri7⟩ :=
        InventoryStatsTracker.register_initial_frame
          ({ t0.reset_stats with current_snapshot := some (extractObs o) })
          (extractObs o)
      exact ⟨ri6, ri7⟩
  obtain ⟨ci1, ci2⟩ := InventoryStatsTracker.runSteps_indices steps (t0.start_episode obs0)
  have hen : (runSteps (t0.start_episode obs0) steps).enabled = true :=
    InventoryStatsTracker.enabled_of_indices t0 _ (ci1.trans hsi.1)
      (ci2.trans hsi.2) h
  rcases InventoryStatsTracker.finalize_keys _ hen with hk | hk
  · exact absurd hk hne
  · refine ⟨hk, ?_⟩
    exact finalize_noZero _ hen
      (InventoryStatsTracker.runSteps_good steps _
        (InventoryStatsTracker.start_episode_good t0 obs0 h))

/-- Witness for the amended C5 at a concrete episode with a pickup. -/
theorem C5_witness :
    tEx0.enabled = true ∧
    ((runSteps (tEx0.start_episode (some oEx1)) []).finalize_episode).2 ≠ [] ∧
    (((runSteps (tEx0.start_episode (some oEx1)) []).finalize_episode).2.map
        Prod.fst =
      ["inv_pickups_by_name", "inv_pickups_by_class", "inv_uses_by_action",
       "inv_uses_by_name", "inv_uses_by_class", "inv_by_name",
       "inv_by_category"] ∧
    ∀ kv ∈ ((runSteps (tEx0.start_episode (some oEx1)) []).finalize_episode).2,
      MetaVal.noZero kv.2) :=
  ⟨rfl, by decide,
    C5_output_keys_amended tEx0 (some oEx1) [] rfl (by decide)⟩

/-- Claim C6: on an enabled tracker that has a current snapshot, a
`record_step` with a `None` observation leaves the entire state unchanged. -/
theorem C6_record_step_none_noop (t : InventoryStatsTracker) (a : NhAction)
    (s : InventorySnapshot) (h : t.enabled = true)
    (hc : t.current_snapshot = some s) : t.record_step a none = t :=
  InventoryStatsTracker.record_step_none_obs t a s h hc

/-- Witness for C6 at a concrete tracker with a current snapshot. -/
theorem C6_witness :
    tEx1.enabled = true ∧
    tEx1.current_snapshot = some (extractObs oEx1) ∧
    tEx1.record_step (NhAction.Command "EAT") none = tEx1 :=
  ⟨rfl, rfl, C6_record_step_none_noop tEx1 (NhAction.Command "EAT")
    (extractObs oEx1) rfl rfl⟩

/-- Claim C7: on an enabled tracker, a second `finalize_episode` immediately
after a first one returns the empty mapping (the first call reset all
episode state). -/
theorem C7_finalize_twice_empty (t : InventoryStatsTracker)
    (h : t.enabled = true) :
    (((t.finalize_episode).1).finalize_episode).2 = [] := by
  rw [InventoryStatsTracker.finalize_fst t h]
  exact InventoryStatsTracker.finalize_of_reset t h

/-- Witness for C7 at a concrete enabled tracker. -/
theorem C7_witness :
    tEx1.enabled = true ∧ (((tEx1.finalize_episode).1).finalize_episode).2 = [] :=
  ⟨rfl, C7_finalize_twice_empty tEx1 rfl⟩

/-- Claim C8: in every snapshot the extractor builds from one observation,
the sum of the per-name counts equals the sum of the per-category counts
(each counted slot increments exactly one name and one category counter). -/
theorem C8_snapshot_sum_invariant (o : Observation) :
    counterSum (extractObs o).counts = counterSum (extractObs o).categories := by
  show counterSum ((o.inv_strs.zip o.inv_oclasses).foldl extract_slot_step
      { counts := [], categories := [], name_to_category := [] }).counts =
    counterSum ((o.inv_strs.zip o.inv_oclasses).foldl extract_slot_step
      { counts := [], categories := [], name_to_category := [] }).categories
  exact sums_foldl (o.inv_strs.zip o.inv_oclasses) _ rfl

/-- Claim C9: on an enabled tracker with no current snapshot, `record_step`
only seeds the current snapshot from the observation; every other field —
counters and the pending label included, whatever the action — is unchanged. -/
theorem C9_seed_step_only_sets_snapshot (t : InventoryStatsTracker)
    (a : NhAction) (obs : Option Observation) (h : t.enabled = true)
    (hc : t.current_snapshot = none) :
    t.record_step a obs = { t with current_snapshot := extract_snapshot obs } :=
  InventoryStatsTracker.record_step_seed t a obs h hc

/-- Witness for C9 with a tracked action passed on the seeding step. -/
theorem C9_witness :
    tEx0.enabled = true ∧
    tEx0.current_snapshot = none ∧
    tEx0.record_step (NhAction.Command "EAT") (some oEx1) =
      { tEx0 with current_snapshot := extract_snapshot (some oEx1) } :=
  ⟨rfl, rfl, C9_seed_step_only_sets_snapshot tEx0 (NhAction.Command "EAT")
    (some oEx1) rfl rfl⟩

/-- Claim C10: on an enabled tracker, `finalize_episode` is all-or-nothing:
it returns either the empty mapping or a mapping with exactly the seven keys
`inv_pickups_by_name`, `inv_pickups_by_class`, `inv_uses_by_action`,
`inv_uses_by_name`, `inv_uses_by_class`, `inv_by_name`, `inv_by_category`
(empty sub-mappings included whenever any sub-mapping is non-empty). -/
theorem C10_all_or_nothing (t : InventoryStatsTracker) (h : t.enabled = true) :
    (t.finalize_episode).2 = [] ∨
    (t.finalize_episode).2.map Prod.fst =
      ["inv_pickups_by_name", "inv_pickups_by_class", "inv_uses_by_action",
       "inv_uses_by_name", "inv_uses_by_class", "inv_by_name",
       "inv_by_category"] :=
  InventoryStatsTracker.finalize_keys t h

/-- Witness for C10 at a concrete enabled tracker. -/
theorem C10_witness :
    tEx1.enabled = true ∧
    ((tEx1.finalize_episode).2 = [] ∨
    (tEx1.finalize_episode).2.map Prod.fst =
      ["inv_pickups_by_name", "inv_pickups_by_class", "inv_uses_by_action",
       "inv_uses_by_name", "inv_uses_by_class", "inv_by_name",
       "inv_by_category"]) :=
  ⟨rfl, C10_all_or_nothing tEx1 rfl⟩
